import Mathlib

/-!
Verification development for `rest_framework_openapi_gen`: a shallow
embedding, in Lean 4, of the parts of the generator the checked properties
concern — the JSON-pointer address type (`json_pointer.py`), the parsed
contract model (`parser.py`), the binding-descriptor graph builder and
emission weigher (`renderer/__init__.py`), the AST code-construction engine
(`renderer/codegen.py`) and the naming conventions (`renderer/naming_conv.py`).
Strings are modelled as `List Char` where character-level reasoning is
needed, and Python's fallible operations return `Except`/`Option`.
-/

namespace Spec2Proof

/-! ## json_pointer.py -/

/-- A path segment of a JSON pointer, at the character level. -/
abbrev Seg := List Char

/-- Python `str.replace(pat, rep)` for a one-character pattern: every
occurrence of `pat` is replaced by `rep`. -/
def pyReplaceChar (pat : Char) (rep : List Char) : List Char → List Char
  | [] => []
  | c :: rest => (if c = pat then rep else [c]) ++ pyReplaceChar pat rep rest

/-- Python `str.replace(p1p2, rep)` for a two-character pattern: a leftmost,
non-overlapping scan. -/
def pyReplace2 (p1 p2 : Char) (rep : List Char) : List Char → List Char
  | [] => []
  | [c] => [c]
  | c1 :: c2 :: rest =>
    if c1 = p1 ∧ c2 = p2 then rep ++ pyReplace2 p1 p2 rep rest
    else c1 :: pyReplace2 p1 p2 rep (c2 :: rest)

/-- `quote_json_pointer`: `v.replace("~", "~0").replace("/", "~1")`. -/
def quote_json_pointer (v : List Char) : List Char :=
  pyReplaceChar '/' ['~', '1'] (pyReplaceChar '~' ['~', '0'] v)

/-- `unquote_json_pointer`: `v.replace("~1", "/").replace("~0", "~")`. -/
def unquote_json_pointer (v : List Char) : List Char :=
  pyReplace2 '~' '0' ['~'] (pyReplace2 '~' '1' ['/'] v)

/-- `JSONPointer.__str__`: `"".join(f"/{quote_json_pointer(c)}" for c in
self.path) if self.path else "/"` (every segment of a pointer's `path` is a
`str`, so the `[{c}]` alternative of the joined f-string never fires). -/
def renderPointer (path : List Seg) : List Char :=
  if path.isEmpty then ['/']
  else (path.map (fun c => '/' :: quote_json_pointer c)).flatten

/-- Python `str.split(sep)` for a one-character separator. -/
def pySplit (sep : Char) : List Char → List (List Char)
  | [] => [[]]
  | c :: rest =>
    match pySplit sep rest with
    | [] => [[]]
    | cur :: out => if c = sep then [] :: cur :: out else (c :: cur) :: out

/-- The numeric value of a hexadecimal digit. -/
def hexVal (c : Char) : Option Nat :=
  if '0' ≤ c ∧ c ≤ '9' then some (c.toNat - '0'.toNat)
  else if 'a' ≤ c ∧ c ≤ 'f' then some (c.toNat - 'a'.toNat + 10)
  else if 'A' ≤ c ∧ c ≤ 'F' then some (c.toNat - 'A'.toNat + 10)
  else none

/-- `urllib.parse.unquote` at the byte level: a `%XX` escape with two hex
digits becomes the character with that code, anything else passes through.
Only the `#`-fragment branch of `JSONPointer.from_string` uses it, and that
branch is unreachable for rendered pointers (they start with `/`). -/
def percentUnquote : List Char → List Char
  | '%' :: a :: b :: rest =>
    match hexVal a, hexVal b with
    | some x, some y => Char.ofNat (16 * x + y) :: percentUnquote rest
    | _, _ => '%' :: percentUnquote (a :: b :: rest)
  | c :: rest => c :: percentUnquote rest
  | [] => []

/-- `JSONPointer.from_string`: strip a leading `#` (URL-unquoting the rest),
split on `/`, drop empty components, unquote each. -/
def fromStringPointer (v : List Char) : List Seg :=
  let v' := match v with
    | '#' :: rest => percentUnquote rest
    | _ => v
  ((pySplit '/' v').filter (fun c => !c.isEmpty)).map unquote_json_pointer

/-! ## parser.py — value validation -/

/-- The address of a node in the source document (`JSONPointer.path`),
modelled structurally: equality and hashing of pointers are structural over
the segment sequence. -/
abbrev Addr := List String

/-- A Python value as the parser's validators see it. `bool` is a subclass
of `int` in Python, so it is listed among the numeric cases below where
`isinstance(v, (int, float))` holds. Containers and other objects behave
like the non-numeric cases for that test. Finite floats are modelled as
rationals. -/
inductive PyValue where
  | int (n : Int)
  | bool (b : Bool)
  | float (q : Rat)
  | str (s : String)
  | none
deriving DecidableEq, Repr

/-- `InvalidSchemaError(message, ctx=...)`: a schema-structure error tagged
with the offending address. -/
structure InvalidSchemaError where
  message : String
  ctx : Addr
deriving DecidableEq, Repr

/-- Python `isinstance(v, (int, float))`. -/
def isIntOrFloatInstance : PyValue → Bool
  | .int _ => true
  | .bool _ => true
  | .float _ => true
  | _ => false

/-- Python `int(x)` on a float: truncation toward zero. -/
def pyTruncFloat (q : Rat) : Int := q.num.tdiv q.den

/-- Python `str(v)` for the message text (float display is approximated by
the rational's own rendering; the message text carries no weight here). -/
def pyStr : PyValue → String
  | .int n => toString n
  | .bool b => if b then "True" else "False"
  | .float q => toString q
  | .str s => s
  | .none => "None"

/-- `validate_as_integer(ctx, v)`: raises `InvalidSchemaError` unless
`isinstance(v, (int, float))`, else returns `int(v)` (so a float is
truncated and a bool passes as 1/0). -/
def validate_as_integer (ctx : Addr) (v : PyValue) : Except InvalidSchemaError Int :=
  match v with
  | .int n => .ok n
  | .bool b => .ok (if b then 1 else 0)
  | .float q => .ok (pyTruncFloat q)
  | _ => .error ⟨"value must be an integer, got " ++ pyStr v, ctx⟩

/-! ## renderer/__init__.py — pseudo-definition naming -/

/-- Python `s.split(sep)` for a one-character separator, on `String`. -/
def pyStrSplit (sep : Char) (s : String) : List String :=
  (pySplit sep s.data).map (fun l => ⟨l⟩)

/-- One component of `build_pseudo_name`:
`c[1:-1] if c.startswith("{") and c.endswith("}") else c`. -/
def stripPlaceholderBraces (c : String) : String :=
  if c.data.head? = some '{' ∧ c.data.getLast? = some '}' then
    ⟨(c.data.drop 1).dropLast⟩
  else c

/-- `build_pseudo_name(path, verb)`: joins the `/`-split components of the
path template with underscores, stripping braces from placeholder
components. The `verb` argument of the source function is never read. -/
def build_pseudo_name (path : String) : String :=
  String.intercalate "_" ((pyStrSplit '/' path).map stripPlaceholderBraces)

/-! ## parser.py — the contract model -/

/-- `JSONType` (parser.py). -/
inductive JSONType where
  | number
  | integer
  | string
  | boolean
  | array
  | object
deriving DecidableEq, Repr

/-- `HttpVerb` (parser.py). -/
inductive HttpVerb where
  | get
  | post
  | put
  | patch
  | delete
deriving DecidableEq, Repr

/-- `ParameterPlace` (parser.py). -/
inductive ParameterPlace where
  | path
  | query
  | formData
  | body
deriving DecidableEq, Repr

/-- A schema node: either a `SchemaRef` (an address stand-in to resolve
later) or a `Schema` (parser.py). A `Definition` is a `Schema` additionally
carrying a declared name, modelled by `defName = some n`; a plain `Schema`
has `defName = none`. Ordered mappings are modelled as association lists in
insertion order. -/
inductive SchemaNode where
  | ref (ctx : Addr) (ref : Addr)
  | schema (ctx : Addr) (type_ : JSONType) (format : Option String)
      (properties : Option (List (String × SchemaNode)))
      (required : Option (List String))
      (items : Option SchemaNode)
      (defName : Option String)

/-- The `ctx` (address) attribute common to both node shapes. -/
def SchemaNode.ctxOf : SchemaNode → Addr
  | .ref c _ => c
  | .schema c _ _ _ _ _ _ => c

/-- The declared name when the node is a `Definition`; `none` otherwise
(`isinstance(x, Definition)` holds exactly when this is `some`). -/
def SchemaNode.defNameOf : SchemaNode → Option String
  | .ref _ _ => Option.none
  | .schema _ _ _ _ _ _ n => n

/-- `Parameter` (parser.py). -/
structure Parameter where
  ctx : Addr
  name : String
  in_ : ParameterPlace := .query
  schema : Option SchemaNode := Option.none
  description : Option String := Option.none
  type_ : Option JSONType := some .string
  required : Bool := false

/-- `Response` (parser.py). -/
structure Response where
  ctx : Addr
  status_code : String
  schema : Option SchemaNode := Option.none
  description : Option String := Option.none

/-- `Verb` (parser.py); `responses` maps status code to response in
insertion order. -/
structure Verb where
  ctx : Addr
  verb : HttpVerb
  tags : List String := []
  parameters : List Parameter := []
  responses : List (String × Response) := []
  function_name : Option String := Option.none
  description : Option String := Option.none
  operation_id : Option String := Option.none

/-- `Path` (parser.py). -/
structure Path where
  ctx : Addr
  path : String
  verbs : List (HttpVerb × Verb) := []

/-- `OpenAPISpec` (parser.py); `definitions` maps name to `Definition`. -/
structure OpenAPISpec where
  ctx : Addr
  definitions : List (String × SchemaNode) := []
  paths : List Path := []

/-! ## Python dict / set helpers -/

/-- `dict.get(k)` on an association list in insertion order. -/
def alistGet {α β : Type} [DecidableEq α] : List (α × β) → α → Option β
  | [], _ => Option.none
  | (k, v) :: rest, a => if k = a then some v else alistGet rest a

/-- `d[k] = v` on an association list: updates the existing entry in place
(keeping its position) or appends a new one, as a Python dict does. -/
def alistSet {α β : Type} [DecidableEq α] : List (α × β) → α → β → List (α × β)
  | [], a, v => [(a, v)]
  | (k, w) :: rest, a, v =>
    if k = a then (k, v) :: rest else (k, w) :: alistSet rest a v

/-- `set.add(x)` preserving insertion order (a `set`/`IdentitySet` is backed
by a dict keyed by the element, so re-adding is a no-op). -/
def setInsert {α : Type} [DecidableEq α] (x : α) (l : List α) : List α :=
  if x ∈ l then l else l ++ [x]

/-! ## renderer/models.py and the binding-descriptor graph builder -/

/-- `SerializerDescriptor` (renderer/models.py). Owners are modelled by the
addresses of the owning descriptors: descriptor objects correspond one-to-one
to their key address in the serializers dict (an entry, once created, is
never rebound), so the `IdentitySet` of owner objects is an insertion-ordered
set of their addresses. -/
structure SerializerDescriptor where
  schema : SchemaNode
  name : String
  owners : List Addr := []
  many : Option Addr := Option.none

/-- The serializers dict: address → descriptor, in insertion order. -/
abbrev SerMap := List (Addr × SerializerDescriptor)

/-- `serializers.get(a)`. -/
def lookupSer (m : SerMap) (a : Addr) : Option SerializerDescriptor :=
  alistGet m a

/-- `IdentitySet.add`: idempotent, insertion-ordered. -/
def insertOwner (o : Addr) (l : List Addr) : List Addr :=
  if o ∈ l then l else l ++ [o]

/-- `me.owners.add(owner)` performed on the descriptor stored at `a`: the
entry keeps its position, schema, name and marker; only its owner set grows. -/
def addOwnerAt (a : Addr) (o : Addr) : SerMap → SerMap
  | [] => []
  | (k, d) :: rest =>
    if k = a then (k, { d with owners := insertOwner o d.owners }) :: addOwnerAt a o rest
    else (k, d) :: addOwnerAt a o rest

/-- The error outcomes of the renderer stages: `UnresolvedRefError`,
`UnsupportedOpenAPISchema`, a failed `assert`, an `AttributeError`/`KeyError`
(unreachable for inputs the program constructs), and exhaustion of the fuel
that makes the recursive walk total in this embedding. -/
inductive GenError where
  | unresolvedRef (p : Addr)
  | unsupportedSchema
  | assertionFailed
  | attributeError
  | keyError
  | fuelExhausted
deriving DecidableEq, Repr

/-- `SchemaResolverFunc`: what `SchemaResolver.resolve` wraps — the
pointers-to-definitions map built by `build_schema_resolver`. -/
abbrev Resolver := Addr → Option SchemaNode

/-- `QualifierContext` (renderer/__init__.py), without the threaded
`resolver` and `serializers` fields, which are passed explicitly. -/
structure QualifierContext where
  owner : Option Addr := Option.none
  pname : Option String := Option.none

/-- The `many` marker recorded for an array-of-X definition:
`schema.items.ref if isinstance(schema.items, SchemaRef) else schema.items.ctx`. -/
def many_marker_of : SchemaNode → Addr
  | .ref _ r => r
  | .schema c _ _ _ _ _ _ => c

/-- The get-or-create step of `qualify_child_schemas`:
`me = qctx.serializers.get(schema.ctx); if me is None: me =
qctx.serializers[schema.ctx] = SerializerDescriptor(...)`. -/
def get_or_create (st : SerMap) (ctx : Addr) (d : SerializerDescriptor) : SerMap :=
  if (lookupSer st ctx).isSome then st else st ++ [(ctx, d)]

/-- `if qctx.owner is not None: me.owners.add(qctx.owner)`. -/
def register_owner (qctx : QualifierContext) (ctx : Addr) (st : SerMap) : SerMap :=
  match qctx.owner with
  | some o => addOwnerAt ctx o st
  | Option.none => st

/-- The LITERAL string `"{qctx.owner.name}_{qctx.pname}"` passed as the
nested descriptor name by `qualify_child_schemas_inner`: the source lacks
the `f` prefix on these string literals (renderer/__init__.py lines 93 and
99), so no interpolation takes place. -/
def literal_nested_name : String := "\x7bqctx.owner.name\x7d_\x7bqctx.pname\x7d"

mutual

/-- `qualify_child_schemas_inner` (renderer/__init__.py lines 79-101): a
reference is resolved first; the resolved node is qualified under its
declared `Definition` name when it has one (`isinstance(schema,
Definition)`), and under `literal_nested_name` otherwise; a concrete schema
is qualified directly under `literal_nested_name`. -/
def qualify_child_schemas_inner (fuel : Nat) (resolver : Resolver)
    (qctx : QualifierContext) (schema_or_ref : SchemaNode) (st : SerMap) :
    Except GenError SerMap :=
  match fuel with
  | 0 => .error .fuelExhausted
  | f + 1 =>
    match schema_or_ref with
    | .ref _ r =>
      match resolver r with
      | Option.none => .error (.unresolvedRef r)
      | some schema =>
        qualify_child_schemas f resolver qctx
          (schema.defNameOf.getD literal_nested_name) schema st
    | .schema _ _ _ _ _ _ _ =>
      qualify_child_schemas f resolver qctx literal_nested_name schema_or_ref st

/-- `qualify_child_schemas` (renderer/__init__.py lines 104-144). Object
shapes get (or create, keyed by `schema.ctx`) a descriptor and register the
calling owner; array shapes only when they are themselves definitions, in
which case the element address is recorded as the `many` marker; scalar
shapes register nothing. (The source's `assert` on a missing
`properties`/`items` fires after the descriptor registration; the
intermediate state of a failing run is not observable, so the error is
returned directly here.) -/
def qualify_child_schemas (fuel : Nat) (resolver : Resolver)
    (qctx : QualifierContext) (name : String) (schema : SchemaNode)
    (st : SerMap) : Except GenError SerMap :=
  match fuel with
  | 0 => .error .fuelExhausted
  | f + 1 =>
    match schema with
    | .ref _ _ => .error .attributeError
    | .schema ctx type_ _ properties _ items defName =>
      if type_ = .object then
        match properties with
        | Option.none => .error .assertionFailed
        | some props =>
          qualify_props f resolver ctx props
            (register_owner qctx ctx
              (get_or_create st ctx { schema := schema, name := name }))
      else if type_ = .array then
        match items with
        | Option.none => .error .assertionFailed
        | some its =>
          if defName.isSome then
            qualify_child_schemas_inner f resolver { qctx with owner := some ctx } its
              (register_owner qctx ctx
                (get_or_create st ctx
                  { schema := schema, name := name, many := some (many_marker_of its) }))
          else
            qualify_child_schemas_inner f resolver qctx its st
      else
        .ok st

/-- The per-property loop of `qualify_child_schemas`' object branch: each
property is qualified with the object's descriptor as the owner context and
the property name as `pname`, threading the serializers dict. -/
def qualify_props (fuel : Nat) (resolver : Resolver) (meCtx : Addr)
    (props : List (String × SchemaNode)) (st : SerMap) :
    Except GenError SerMap :=
  match fuel with
  | 0 => .error .fuelExhausted
  | f + 1 =>
    match props with
    | [] => .ok st
    | (pname, p) :: rest =>
      match qualify_child_schemas_inner f resolver
          { owner := some meCtx, pname := some pname } p st with
      | .error e => .error e
      | .ok st' => qualify_props f resolver meCtx rest st'

end

/-! ## renderer/__init__.py — resolver and Pass 1 of `build_serializers` -/

/-- `build_schema_resolver`: the pointers-to-definitions map, keyed by each
definition's `ctx` address, wrapped as a lookup function
(`SchemaResolver.resolve` raises when the lookup misses, modelled by the
`Option` result of the `Resolver`). -/
def build_schema_resolver (spec : OpenAPISpec) : Resolver :=
  fun p => alistGet (spec.definitions.foldl (fun m nd => alistSet m nd.2.ctxOf nd.2) []) p

/-- `SchemaResolver.resolve_if_ref`: a concrete schema is returned
unchanged; a reference is resolved, failing with an unresolved-reference
error when its address has no definition. -/
def resolve_if_ref (resolver : Resolver) (sr : SchemaNode) : Except GenError SchemaNode :=
  match sr with
  | .ref _ r =>
    match resolver r with
    | some d => .ok d
    | Option.none => .error (.unresolvedRef r)
  | s => .ok s

/-- Pass 1's accumulator: the `important_schema_refs` set and the
`pseudo_defs` dict of `build_serializers`. -/
abbrev Pass1Acc := List Addr × List (Addr × SchemaNode)

/-- The body of Pass 1's innermost loop (`for resp in verb.responses.values()`):
a response with no schema is skipped; a reference schema marks its referenced
address important; an inline schema synthesizes a pseudo-definition — a
`Definition` cloned from the inline schema, named after the path template,
keyed by the inline schema's own address. -/
def pass1_resp (pathTemplate : String) (acc : Pass1Acc) (rr : String × Response) :
    Pass1Acc :=
  match rr.2.schema with
  | Option.none => acc
  | some (.ref _ r) => (setInsert r acc.1, acc.2)
  | some (.schema c t fm prs rq it _) =>
    (acc.1, alistSet acc.2 c (.schema c t fm prs rq it (some (build_pseudo_name pathTemplate))))

def pass1_resps (pathTemplate : String) (acc : Pass1Acc)
    (rs : List (String × Response)) : Pass1Acc :=
  rs.foldl (pass1_resp pathTemplate) acc

/-- One verb of Pass 1: verbs without a generator-directed function name are
skipped entirely; for the others every response is examined. -/
def pass1_verb (pathTemplate : String) (acc : Pass1Acc) (vv : HttpVerb × Verb) :
    Pass1Acc :=
  match vv.2.function_name with
  | Option.none => acc
  | some _ => pass1_resps pathTemplate acc vv.2.responses

def pass1_path (acc : Pass1Acc) (path : Path) : Pass1Acc :=
  path.verbs.foldl (pass1_verb path.path) acc

/-- Pass 1 of `build_serializers` (renderer/__init__.py lines 207-222):
collect the important referenced addresses and the pseudo-definitions. -/
def build_serializers_pass1 (spec : OpenAPISpec) : Pass1Acc :=
  spec.paths.foldl pass1_path ([], [])

/-- `build_serializers` (renderer/__init__.py lines 200-249): Pass 1, then
the recursive qualification of the important named definitions and of the
object-typed pseudo-definitions. -/
def build_serializers (fuel : Nat) (spec : OpenAPISpec) : Except GenError SerMap := do
  let resolver := build_schema_resolver spec
  let p1 := build_serializers_pass1 spec
  let st ← spec.definitions.foldlM (fun st nd =>
    if nd.2.ctxOf ∈ p1.1 then
      match nd.2.defNameOf with
      | some n => qualify_child_schemas fuel resolver {} n nd.2 st
      | Option.none => .error .attributeError
    else pure st) ([] : SerMap)
  p1.2.foldlM (fun st cd =>
    match cd.2 with
    | .schema _ .object _ _ _ _ _ =>
      match cd.2.defNameOf with
      | some n => qualify_child_schemas fuel resolver {} n cd.2 st
      | Option.none => .error .attributeError
    | _ => pure st) st

/-- A response carrying a reference schema to address `a`. -/
def RespRefOcc (rr : String × Response) (a : Addr) : Prop :=
  ∃ c, rr.2.schema = some (.ref c a)

/-- A response carrying an inline (concrete) schema whose own address is `c`. -/
def RespInlineOcc (rr : String × Response) (c : Addr) : Prop :=
  ∃ t fm prs rq it dn, rr.2.schema = some (.schema c t fm prs rq it dn)

/-- A response carrying an inline schema at `c` whose pseudo-definition,
named `n`, is `d`. -/
def RespInlineDef (rr : String × Response) (c : Addr) (n : String)
    (d : SchemaNode) : Prop :=
  ∃ t fm prs rq it dn, rr.2.schema = some (.schema c t fm prs rq it dn) ∧
    d = .schema c t fm prs rq it (some n)

/-- Concrete Pass-1 fixture: one path, one generation-flagged verb whose only
response has status code "404" and a reference schema. -/
def exC2_addrT : Addr := ["definitions", "T"]

def exC2_response : Response :=
  { ctx := ["paths", "/w", "get", "responses", "404"],
    status_code := "404",
    schema := some (.ref ["paths", "/w", "get", "responses", "404", "schema"] exC2_addrT) }

def exC2_verb : Verb :=
  { ctx := ["paths", "/w", "get"],
    verb := .get,
    responses := [("404", exC2_response)],
    function_name := some "getW" }

def exC2_path : Path :=
  { ctx := ["paths", "/w"],
    path := "/w",
    verbs := [(.get, exC2_verb)] }

def exC2_spec : OpenAPISpec :=
  { ctx := [],
    definitions := [],
    paths := [exC2_path] }

/-! ## renderer/__init__.py — `eval_weights` and the emission order -/

/-- Evaluation of a generator/list of `Option`s, failing when any element
fails (the shape of Python's `sum(...)` over a generator whose elements are
computed recursively). -/
def mapOption {α β : Type} (f : α → Option β) : List α → Option (List β)
  | [] => some []
  | a :: l => (f a).bind (fun b => (mapOption f l).map (fun bs => b :: bs))

/-- `eval_weights`' inner recursion `_`: the weight of a descriptor is one
plus the sum of its owners' weights (the Python memoization by object id
caches a pure recursion, so it computes the same values; the fuel makes the
recursion total here — it runs out only on owner cycles, where the Python
recurses forever). Owners are resolved through the serializers map. -/
def eval_weight_fuel : Nat → SerMap → SerializerDescriptor → Option Nat
  | 0, _, _ => Option.none
  | f + 1, m, d =>
    (mapOption (fun a => (lookupSer m a).bind (eval_weight_fuel f m)) d.owners).map
      (fun ws => ws.sum + 1)

/-- `eval_weights(serializers.values())`: each descriptor paired with its
weight, in the dict's insertion (discovery) order. -/
def eval_weights (fuel : Nat) (m : SerMap) : Option (List (SerializerDescriptor × Nat)) :=
  mapOption (fun d => (eval_weight_fuel fuel m d).map (fun w => (d, w))) (m.map Prod.snd)

/-- Stable insertion for descending weight: `x` goes before the first `y`
with `y.2 ≤ x.2`, so among equal weights earlier input stays first. -/
def insertDesc {α : Type} (x : α × Nat) : List (α × Nat) → List (α × Nat)
  | [] => [x]
  | y :: rest => if y.2 ≤ x.2 then x :: y :: rest else y :: insertDesc x rest

/-- `sorted(pairs, key=lambda pair: -pair[1])`: Python's `sorted` is a
stable sort, and a stable sort's output is determined by the comparison and
the input order, so it is modelled by a stable insertion sort by descending
weight. -/
def sortDescStable {α : Type} : List (α × Nat) → List (α × Nat)
  | [] => []
  | x :: rest => insertDesc x (sortDescStable rest)

/-! ## renderer/__init__.py — `render_as_django_url_pattern` -/

/-- `JSON_TYPE_TO_PYTHON_TYPE_MAP` followed by `__name__`: integer and
number map to the `int` route converter, string to `str`; the other kinds
have no routing type token. -/
def JSON_TYPE_TO_PYTHON_TYPE : JSONType → Option String
  | .integer => some "int"
  | .number => some "int"
  | .string => some "str"
  | _ => Option.none

/-- Python `c[1:-1]`. -/
def stripFirstLast (c : String) : String := ⟨(c.data.drop 1).dropLast⟩

/-- `c[0] == "{" and c[-1] == "}"` (for the components reaching this test,
`c` is nonempty). -/
def IsPlaceholderStr (c : String) : Prop :=
  c.data.head? = some '{' ∧ c.data.getLast? = some '}'

instance (c : String) : Decidable (IsPlaceholderStr c) := by
  unfold IsPlaceholderStr
  infer_instance

/-- One parameter of the `param_dict` loop: a name seen before must carry
the same declared type (`if pt != p.type_: raise UnsupportedOpenAPISchema`,
where the stored `pt` is the earlier `p.type_ or JSONType.STRING`); a new
name is stored with its declared type, defaulted to string
(`param_dict[p.name] = p.type_ or JSONType.STRING` — every `JSONType` value
is a truthy nonempty string, so `or` only replaces `None`). -/
def add_param (m : List (String × JSONType)) (p : Parameter) :
    Except GenError (List (String × JSONType)) :=
  match alistGet m p.name with
  | some pt => if p.type_ ≠ some pt then .error .unsupportedSchema else .ok m
  | Option.none => .ok (m ++ [(p.name, p.type_.getD .string)])

def add_params (m : List (String × JSONType)) :
    List Parameter → Except GenError (List (String × JSONType))
  | [] => .ok m
  | p :: rest =>
    match add_param m p with
    | .error e => .error e
    | .ok m' => add_params m' rest

/-- The `param_dict` construction of `render_as_django_url_pattern`: all
parameters of all verbs at the path, in order. -/
def build_param_dict_from (m : List (String × JSONType)) :
    List (HttpVerb × Verb) → Except GenError (List (String × JSONType))
  | [] => .ok m
  | vv :: rest =>
    match add_params m vv.2.parameters with
    | .error e => .error e
    | .ok m' => build_param_dict_from m' rest

def build_param_dict (vs : List (HttpVerb × Verb)) :
    Except GenError (List (String × JSONType)) :=
  build_param_dict_from [] vs

/-- The path components after `cs = path.split("/")` and
`if cs[0] == "": cs = cs[1:]` (split output is never empty). -/
def effComponents (path : String) : List String :=
  match pyStrSplit '/' path with
  | "" :: rest => rest
  | cs => cs

/-- One loop iteration of the component rendering (for a nonempty
component): a `{name}` placeholder is looked up in `param_dict` and its
type mapped to a routing token, failing with an unsupported-schema error on
a missing parameter or unmappable type; a literal component passes through. -/
def render_component (pd : List (String × JSONType)) (c : String) :
    Except GenError String :=
  if IsPlaceholderStr c then
    match alistGet pd (stripFirstLast c) with
    | Option.none => .error .unsupportedSchema
    | some pt =>
      match JSON_TYPE_TO_PYTHON_TYPE pt with
      | Option.none => .error .unsupportedSchema
      | some ppt => .ok ("<" ++ ppt ++ ":" ++ stripFirstLast c ++ ">")
  else .ok c

/-- The component loop: empty components are skipped (`if not c: continue`),
the others rendered in order. -/
def render_components (pd : List (String × JSONType)) :
    List String → Except GenError (List String)
  | [] => .ok []
  | c :: rest =>
    if c.isEmpty then render_components pd rest
    else
      match render_component pd c with
      | .error e => .error e
      | .ok rc =>
        match render_components pd rest with
        | .error e => .error e
        | .ok rcs => .ok (rc :: rcs)

/-- `render_as_django_url_pattern` (renderer/__init__.py lines 259-297). -/
def render_as_django_url_pattern (path : Path) : Except GenError String :=
  match build_param_dict path.verbs with
  | .error e => .error e
  | .ok pd =>
    match render_components pd (effComponents path.path) with
    | .error e => .error e
    | .ok rcs => .ok (String.intercalate "/" rcs)

/-- All parameters of all verbs at a path, in iteration order. -/
def allParams (vs : List (HttpVerb × Verb)) : List Parameter :=
  (vs.map (fun vv => vv.2.parameters)).flatten

/-- Every placeholder name carries one consistent declared type across the
path's verbs. -/
def ParamsConsistent (vs : List (HttpVerb × Verb)) : Prop :=
  ∀ p ∈ allParams vs, ∀ q ∈ allParams vs, p.name = q.name → p.type_ = q.type_

/-- Route-rendering fixture: `/items/{itemId}` with a path parameter
`itemId` declared integer; `exC7_path2` adds a second verb redeclaring the
same parameter as string. -/
def exC7_param : Parameter :=
  { ctx := [], name := "itemId", in_ := .path, type_ := some .integer }

def exC7_verb : Verb :=
  { ctx := [], verb := .get, parameters := [exC7_param] }

def exC7_param_str : Parameter :=
  { ctx := [], name := "itemId", in_ := .path, type_ := some .string }

def exC7_verb2 : Verb :=
  { ctx := [], verb := .post, parameters := [exC7_param_str] }

def exC7_path : Path :=
  { ctx := [], path := "/items/\x7bitemId\x7d", verbs := [(.get, exC7_verb)] }

def exC7_path2 : Path :=
  { ctx := [], path := "/items/\x7bitemId\x7d",
    verbs := [(.get, exC7_verb), (.post, exC7_verb2)] }

/-! ## Endpoint grouping (renderer/__init__.py render, lines 306-355, and
renderer/naming_conv.py) -/

/-- `tokenize_snake_case_identifier(ident, starts_with_capital)`
(naming_conv.py): `(starts_with_capital, ident.split("_"))`. -/
def tokenize_snake_case_identifier (ident : String) (starts_with_capital : Bool) :
    Bool × List String :=
  (starts_with_capital, pyStrSplit '_' ident)

/-- Python `str.title()` on ASCII identifier tokens: the first alphabetic
character of each alphabetic run is uppercased, the others lowercased. -/
def pyTitleAux : Bool → List Char → List Char
  | _, [] => []
  | prev, c :: rest =>
    (if c.isAlpha then (if prev then c.toLower else c.toUpper) else c) ::
      pyTitleAux c.isAlpha rest

def pyTitle (s : String) : String := ⟨pyTitleAux false s.data⟩

/-- `render_as_camel_case(tokens)` (naming_conv.py): each token
title-cased, except the first when the leading-capital flag is false. -/
def render_as_camel_case (tokens : Bool × List String) : String :=
  String.join ((tokens.2.enum).map
    (fun ic => if ic.1 ≠ 0 ∨ tokens.1 = true then pyTitle ic.2 else ic.2))

/-- `VerbDescriptor` (renderer/models.py). -/
structure VerbDescriptor where
  verb : Verb
  serializer_descriptor : Option SerializerDescriptor

/-- `Endpoint` (renderer/models.py). -/
structure Endpoint where
  path : Path
  class_name : String
  verbs : List VerbDescriptor

/-- One flagged verb's serializer lookup in `render`: the `"200"`
response's schema, if present, is resolved and must already carry a
serializer descriptor (`raise UnsupportedOpenAPISchema()` otherwise). -/
def verb_ser_descr (resolver : Resolver) (sers : SerMap) (verb : Verb) :
    Except GenError (Option SerializerDescriptor) :=
  match alistGet verb.responses "200" with
  | Option.none => .ok Option.none
  | some resp =>
    match resp.schema with
    | Option.none => .ok Option.none
    | some sr =>
      match resolve_if_ref resolver sr with
      | .error e => .error e
      | .ok schema =>
        match lookupSer sers schema.ctxOf with
        | Option.none => .error .unsupportedSchema
        | some d => .ok (some d)

/-- The per-path verb loop of `render` (lines 311-335): collects the
tokenized function names of generator-flagged verbs and their
`VerbDescriptor`s, in order; unflagged verbs are skipped. -/
def collect_verb_descrs (resolver : Resolver) (sers : SerMap) :
    List (HttpVerb × Verb) →
      Except GenError (List (Bool × List String) × List VerbDescriptor)
  | [] => .ok ([], [])
  | vv :: rest =>
    match vv.2.function_name with
    | Option.none => collect_verb_descrs resolver sers rest
    | some fn =>
      match verb_ser_descr resolver sers vv.2 with
      | .error e => .error e
      | .ok sd =>
        match collect_verb_descrs resolver sers rest with
        | .error e => .error e
        | .ok (fns, vds) =>
          .ok (tokenize_snake_case_identifier fn true :: fns,
            { verb := vv.2, serializer_descriptor := sd } :: vds)

/-- Insertion-order deduplication, modelling the distinct elements
collected by `set(...)`. -/
def dedupFrom (acc : List (List String)) : List (List String) → List (List String)
  | [] => acc
  | x :: rest => dedupFrom (if x ∈ acc then acc else acc ++ [x]) rest

/-- `endpoint_name_candidates = set(tuple(name[:-1]) for _, name in
function_names)` (line 337): the distinct prefixes, each tokenized name
with its trailing action token dropped. -/
def endpoint_name_candidates (fns : List (Bool × List String)) : List (List String) :=
  dedupFrom [] (fns.map (fun bn => bn.2.dropLast))

/-- Per-path grouping outcome of `render` (lines 341-354): exactly one
candidate prefix yields one grouped `Endpoint` named from it and covering
all flagged verbs; otherwise each flagged verb becomes a standalone
`(path, verb-descriptor)` handler entry. -/
def process_path (resolver : Resolver) (sers : SerMap) (path : Path) :
    Except GenError (List Endpoint × List (Path × VerbDescriptor)) :=
  match collect_verb_descrs resolver sers path.verbs with
  | .error e => .error e
  | .ok (fns, vds) =>
    match endpoint_name_candidates fns with
    | [c] =>
      .ok ([{ path := path,
              class_name := render_as_camel_case (true, c) ++ "View",
              verbs := vds }], [])
    | _ => .ok ([], vds.map (fun vd => (path, vd)))

/-- Grouping fixtures: a path whose two flagged verbs share the prefix
`["widget"]`, and one whose verbs have distinct prefixes. -/
def exC8_verbA : Verb := { ctx := [], verb := .get, function_name := some "widget_list" }

def exC8_verbB : Verb := { ctx := [], verb := .post, function_name := some "widget_create" }

def exC8_path : Path :=
  { ctx := [], path := "/widgets", verbs := [(.get, exC8_verbA), (.post, exC8_verbB)] }

def exC8_verbC : Verb := { ctx := [], verb := .get, function_name := some "list_widget" }

def exC8_verbD : Verb := { ctx := [], verb := .post, function_name := some "create_widget" }

def exC8_path2 : Path :=
  { ctx := [], path := "/widgets", verbs := [(.get, exC8_verbC), (.post, exC8_verbD)] }

def exC8_resolver : Resolver := fun _ => Option.none

def exC8_vds : List VerbDescriptor :=
  [{ verb := exC8_verbA, serializer_descriptor := Option.none },
   { verb := exC8_verbB, serializer_descriptor := Option.none }]

def exC8_vds2 : List VerbDescriptor :=
  [{ verb := exC8_verbC, serializer_descriptor := Option.none },
   { verb := exC8_verbD, serializer_descriptor := Option.none }]

/-! ## Code generation (renderer/codegen.py) -/

/-- A `blib2to3` pytree fragment, plus `pyNone` for the Python value `None`
(which `build_property` produces by falling off its end). Node and leaf
types are named by their `pygram`/`token` constant. -/
inductive PyTree where
  | node (type_ : String) (children : List PyTree)
  | leaf (type_ : String) (value : String)
  | pyNone

/-- `schema.type_` (raises `AttributeError` on a `SchemaRef`, which has no
such attribute — modelled by `Option.none` at the access site). -/
def SchemaNode.typeOf : SchemaNode → Option JSONType
  | .ref _ _ => Option.none
  | .schema _ t _ _ _ _ _ => some t

def SchemaNode.formatOf : SchemaNode → Option String
  | .ref _ _ => Option.none
  | .schema _ _ f _ _ _ _ => f

def SchemaNode.itemsOf : SchemaNode → Option SchemaNode
  | .ref _ _ => Option.none
  | .schema _ _ _ _ _ i _ => i

/-- Python `repr` of the simple identifier-like strings passed as `source`:
wrapped in single quotes. -/
def pyRepr (s : String) : String := "'" ++ s ++ "'"

/-- The `source=repr(source) if name != source` keyword common to every
field builder. -/
def source_kwargs (name source : String) : List (String × PyTree) :=
  if name ≠ source then [("source", .leaf "STRING" (pyRepr source))] else []

/-- `render_dereference_chain_into_nodes(callee)`: a NAME leaf for the
first segment, a DOT-trailer node for each further segment. -/
def render_dereference_chain_into_nodes : List String → List PyTree
  | [] => []
  | k :: rest =>
    PyTree.leaf "NAME" k ::
      rest.map (fun k2 =>
        PyTree.node "trailer" [PyTree.leaf "DOT" ".", PyTree.leaf "NAME" k2])

/-- The `arglist` children of `build_python_function_call`: a COMMA leaf
before every keyword argument but the first, each argument a
NAME `=` value node. -/
def buildArgs : List (String × PyTree) → Bool → List PyTree
  | [], _ => []
  | (n, v) :: rest, first =>
    (if first then [] else [PyTree.leaf "COMMA" ","]) ++
      (PyTree.node "argument" [PyTree.leaf "NAME" n, PyTree.leaf "EQUAL" "=", v] ::
        buildArgs rest false)

/-- `build_python_function_call(callee, kwargs)` (codegen.py lines 96-152);
the closing parenthesis leaf is built with `type=token.LPAR, value=")"` as
in the source. -/
def build_python_function_call (callee : List String)
    (kwargs : List (String × PyTree)) : PyTree :=
  PyTree.node "power" (render_dereference_chain_into_nodes callee ++
    [PyTree.node "trailer"
      ([PyTree.leaf "LPAR" "("] ++
       [PyTree.node "arglist" (buildArgs kwargs true)] ++
       [PyTree.leaf "LPAR" ")"])])

/-- The node-builder functions registered in
`default_node_builder_registry`. -/
inductive NodeBuilder where
  | float_field
  | integer_field
  | char_field
  | boolean_field
  | list_serializer
  | nested_serializer
deriving DecidableEq, Repr

/-- The `DefaultNodeBuilderRegistry` mapping (codegen.py lines 405-414). -/
def default_node_builder_mapping : List ((JSONType × Option String) × NodeBuilder) :=
  [((.number, Option.none), .float_field),
   ((.integer, Option.none), .integer_field),
   ((.string, Option.none), .char_field),
   ((.boolean, Option.none), .boolean_field),
   ((.array, Option.none), .list_serializer),
   ((.object, Option.none), .nested_serializer)]

/-- `DefaultNodeBuilderRegistry.__call__`: exact `(type_, format)` lookup,
then the `(type_, None)` fallback, then `raise UnsupportedOpenAPISchema`. -/
def default_node_builder_registry (t : JSONType) (fmt : Option String) :
    Except GenError NodeBuilder :=
  match alistGet default_node_builder_mapping (t, fmt) with
  | some fn => .ok fn
  | Option.none =>
    match alistGet default_node_builder_mapping (t, Option.none) with
    | some fn => .ok fn
    | Option.none => .error .unsupportedSchema

mutual

/-- `run_node_builder` executes the looked-up builder; the `is not`
identity test of `build_list_serializer` is modelled by address
inequality, node addresses being unique in a parsed document. -/
def run_node_builder : Nat → SerMap → NodeBuilder → SchemaNode → String → String →
    List (String × PyTree) → Except GenError PyTree
  | 0, _, _, _, _, _, _ => .error .fuelExhausted
  | fuel + 1, sers, fn, schema, name, source, aux =>
    match fn with
    | .float_field =>
      .ok (build_python_function_call ["fields", "FloatField"]
        (source_kwargs name source ++ aux))
    | .integer_field =>
      .ok (build_python_function_call ["fields", "IntegerField"]
        (source_kwargs name source ++ aux))
    | .char_field =>
      .ok (build_python_function_call ["fields", "CharField"]
        (source_kwargs name source ++ aux))
    | .boolean_field =>
      .ok (build_python_function_call ["fields", "BooleanField"]
        (source_kwargs name source ++ aux))
    | .nested_serializer =>
      match lookupSer sers schema.ctxOf with
      | Option.none => .error .keyError
      | some d =>
        .ok (build_python_function_call [d.name ++ "Serializer"]
          (source_kwargs name source ++ aux))
    | .list_serializer =>
      match
        ((match schema.itemsOf with
          | some (.ref _ r) =>
            match lookupSer sers r with
            | some d => .ok (some d.schema)
            | Option.none => .error GenError.unsupportedSchema
          | its =>
            match lookupSer sers schema.ctxOf with
            | some d =>
              if d.schema.ctxOf ≠ schema.ctxOf then .ok (some d.schema) else .ok its
            | Option.none => .ok its) :
          Except GenError (Option SchemaNode)) with
      | .error e => .error e
      | .ok Option.none => .error .assertionFailed
      | .ok (some elem) =>
        match elem.typeOf with
        | Option.none => .error .attributeError
        | some et =>
          if et = .object then
            build_property fuel sers elem name source
              (alistSet aux "many" (.leaf "NAME" "True"))
          else
            match build_property fuel sers elem "" "" [] with
            | .error e => .error e
            | .ok child =>
              .ok (build_python_function_call ["fields", "ListField"]
                (source_kwargs name source ++ [("child", child)] ++ aux))

/-- `build_property(nbctx, schema, name, source, aux)` (codegen.py lines
364-377) with its missing `return`: the registry is consulted, the builder
runs (its errors propagate), its fragment is discarded and `None`
(`PyTree.pyNone`) comes back. -/
def build_property : Nat → SerMap → SchemaNode → String → String →
    List (String × PyTree) → Except GenError PyTree
  | 0, _, _, _, _, _ => .error .fuelExhausted
  | fuel + 1, sers, schema, name, source, aux =>
    match schema with
    | .ref _ _ => .error .attributeError
    | .schema c t fmt props req its dn =>
      match default_node_builder_registry t fmt with
      | .error e => .error e
      | .ok fn =>
        match run_node_builder fuel sers fn (.schema c t fmt props req its dn)
            name source aux with
        | .error e => .error e
        | .ok _ => .ok PyTree.pyNone

end

/-- The failing input of the missing-return bug: the concrete integer
schema `\x7btype: integer\x7d` at some property address. -/
def exC6_schema : SchemaNode :=
  .schema ["definitions", "X", "properties", "x"] .integer Option.none
    Option.none Option.none Option.none Option.none

/-- Descriptor evolution during the walk: the entry keeps its schema, name
and collection marker; only its owner set may grow. -/
def DescEvolves (d d' : SerializerDescriptor) : Prop :=
  d'.schema = d.schema ∧ d'.name = d.name ∧ d'.many = d.many ∧ d.owners ⊆ d'.owners

/-- Every descriptor present before a step of the walk is still present
after it, under the same address, evolved only by owner additions. -/
def MapPreserved (st st' : SerMap) : Prop :=
  ∀ a d, lookupSer st a = some d → ∃ d', lookupSer st' a = some d' ∧ DescEvolves d d'

/-! Concrete contract fixtures: a definition `S` (an empty object shape)
referenced from a property of definition `A` and from a property of
definition `B`, and a definition `Parent` containing an inline (non-
definition) object property `child`. -/

def exC1_ctxS : Addr := ["definitions", "S"]

def exC1_ctxA : Addr := ["definitions", "A"]

def exC1_ctxB : Addr := ["definitions", "B"]

def exC1_S : SchemaNode :=
  .schema exC1_ctxS .object Option.none (some []) Option.none Option.none (some "S")

def exC1_A : SchemaNode :=
  .schema exC1_ctxA .object Option.none
    (some [("x", .ref ["definitions", "A", "properties", "x"] exC1_ctxS)])
    Option.none Option.none (some "A")

def exC1_B : SchemaNode :=
  .schema exC1_ctxB .object Option.none
    (some [("y", .ref ["definitions", "B", "properties", "y"] exC1_ctxS)])
    Option.none Option.none (some "B")

def exC1_resolver : Resolver := fun p =>
  alistGet [(exC1_ctxS, exC1_S), (exC1_ctxA, exC1_A), (exC1_ctxB, exC1_B)] p

def exC3_ctxP : Addr := ["definitions", "Parent"]

def exC3_ctxC : Addr := ["definitions", "Parent", "properties", "child"]

def exC3_child : SchemaNode :=
  .schema exC3_ctxC .object Option.none (some []) Option.none Option.none Option.none

def exC3_parent : SchemaNode :=
  .schema exC3_ctxP .object Option.none (some [("child", exC3_child)])
    Option.none Option.none (some "Parent")

def exC3_resolver : Resolver := fun _ => Option.none

/-- The `eval_weights` fixture: the two-owner scenario's serializers map
(`S` owned by both `A` and `B`). -/
def exC5_m : SerMap :=
  [(exC1_ctxA, { schema := exC1_A, name := "A" }),
   (exC1_ctxS, { schema := exC1_S, name := "S", owners := [exC1_ctxA, exC1_ctxB] }),
   (exC1_ctxB, { schema := exC1_B, name := "B" })]


end Spec2Proof

namespace Spec2Proof

theorem pyReplaceChar_cons_eq (pat : Char) (rep : List Char) (t : List Char) :
    pyReplaceChar pat rep (pat :: t) = rep ++ pyReplaceChar pat rep t := by
  rw [pyReplaceChar, if_pos rfl]

theorem pyReplaceChar_cons_ne {pat c : Char} (rep : List Char) (t : List Char)
    (h : c ≠ pat) : pyReplaceChar pat rep (c :: t) = c :: pyReplaceChar pat rep t := by
  rw [pyReplaceChar, if_neg h]
  rfl

theorem pyReplace2_cons_ne {p1 p2 c : Char} (rep : List Char) (s : List Char)
    (h : c ≠ p1) : pyReplace2 p1 p2 rep (c :: s) = c :: pyReplace2 p1 p2 rep s := by
  cases s with
  | nil => rfl
  | cons c2 t =>
    rw [pyReplace2, if_neg (fun hp => h hp.1)]

theorem pyReplace2_cons_cons_ne₂ {p1 p2 c1 c2 : Char} (rep : List Char)
    (s : List Char) (h : c2 ≠ p2) :
    pyReplace2 p1 p2 rep (c1 :: c2 :: s) = c1 :: pyReplace2 p1 p2 rep (c2 :: s) := by
  rw [pyReplace2, if_neg (fun hp => h hp.2)]

theorem pyReplace2_match (p1 p2 : Char) (rep : List Char) (t : List Char) :
    pyReplace2 p1 p2 rep (p1 :: p2 :: t) = rep ++ pyReplace2 p1 p2 rep t := by
  rw [pyReplace2, if_pos ⟨rfl, rfl⟩]

theorem unquote_stage2 (v : List Char) :
    pyReplace2 '~' '0' ['~'] (pyReplaceChar '~' ['~', '0'] v) = v := by
  induction v with
  | nil => rfl
  | cons c rest ih =>
    by_cases hc : c = '~'
    · subst hc
      rw [pyReplaceChar_cons_eq]
      show pyReplace2 '~' '0' ['~'] ('~' :: '0' :: pyReplaceChar '~' ['~', '0'] rest) =
        '~' :: rest
      rw [pyReplace2_match, ih]
      rfl
    · rw [pyReplaceChar_cons_ne _ _ hc, pyReplace2_cons_ne _ _ hc, ih]

theorem unquote_stage1 (v : List Char) :
    pyReplace2 '~' '1' ['/'] (pyReplaceChar '/' ['~', '1'] (pyReplaceChar '~' ['~', '0'] v)) =
      pyReplaceChar '~' ['~', '0'] v := by
  induction v with
  | nil => rfl
  | cons c rest ih =>
    by_cases hc : c = '~'
    · subst hc
      rw [pyReplaceChar_cons_eq]
      show pyReplace2 '~' '1' ['/']
          (pyReplaceChar '/' ['~', '1'] ('~' :: '0' :: pyReplaceChar '~' ['~', '0'] rest)) =
        '~' :: '0' :: pyReplaceChar '~' ['~', '0'] rest
      rw [pyReplaceChar_cons_ne _ _ (by decide), pyReplaceChar_cons_ne _ _ (by decide),
        pyReplace2_cons_cons_ne₂ _ _ (by decide), pyReplace2_cons_ne _ _ (by decide), ih]
    · by_cases hs : c = '/'
      · subst hs
        rw [pyReplaceChar_cons_ne _ _ hc, pyReplaceChar_cons_eq]
        show pyReplace2 '~' '1' ['/']
            ('~' :: '1' :: pyReplaceChar '/' ['~', '1'] (pyReplaceChar '~' ['~', '0'] rest)) =
          '/' :: pyReplaceChar '~' ['~', '0'] rest
        rw [pyReplace2_match, ih]
        rfl
      · rw [pyReplaceChar_cons_ne _ _ hc, pyReplaceChar_cons_ne _ _ hs,
          pyReplace2_cons_ne _ _ hc, ih]

theorem unquote_quote (v : List Char) :
    unquote_json_pointer (quote_json_pointer v) = v := by
  rw [unquote_json_pointer, quote_json_pointer, unquote_stage1, unquote_stage2]

theorem slash_not_mem_replaceSlash (w : List Char) :
    '/' ∉ pyReplaceChar '/' ['~', '1'] w := by
  induction w with
  | nil => simp [pyReplaceChar]
  | cons c rest ih =>
    by_cases hc : c = '/'
    · subst hc
      rw [pyReplaceChar_cons_eq]
      intro hmem
      rcases List.mem_append.1 hmem with h | h
      · exact absurd h (by decide)
      · exact ih h
    · rw [pyReplaceChar_cons_ne _ _ hc]
      intro hmem
      rcases List.mem_cons.1 hmem with h | h
      · exact hc h.symm
      · exact ih h

theorem slash_not_mem_quote (v : List Char) : '/' ∉ quote_json_pointer v :=
  slash_not_mem_replaceSlash _

theorem quote_ne_nil {v : List Char} (h : v ≠ []) : quote_json_pointer v ≠ [] := by
  cases v with
  | nil => exact absurd rfl h
  | cons c rest =>
    unfold quote_json_pointer
    by_cases hc : c = '~'
    · subst hc
      rw [pyReplaceChar_cons_eq]
      show pyReplaceChar '/' ['~', '1'] ('~' :: '0' :: pyReplaceChar '~' ['~', '0'] rest) ≠ []
      rw [pyReplaceChar_cons_ne _ _ (by decide)]
      simp
    · rw [pyReplaceChar_cons_ne _ _ hc]
      by_cases hs : c = '/'
      · subst hs
        rw [pyReplaceChar_cons_eq]
        simp
      · rw [pyReplaceChar_cons_ne _ _ hs]
        simp

theorem pySplit_append {sep : Char} (q s : List Char) (h : List Char)
    (t : List (List Char)) (hq : sep ∉ q) (hs : pySplit sep s = h :: t) :
    pySplit sep (q ++ s) = (q ++ h) :: t := by
  induction q with
  | nil => simpa using hs
  | cons c q' ih =>
    have hc : c ≠ sep := fun hc => hq (hc ▸ List.mem_cons_self c q')
    have ih' := ih (fun hm => hq (List.mem_cons_of_mem c hm))
    rw [List.cons_append, pySplit, ih']
    simp [hc]

theorem pySplit_flatten {sep : Char} (segs : List (List Char))
    (hsegs : ∀ q ∈ segs, sep ∉ q) :
    pySplit sep ((segs.map (fun q => sep :: q)).flatten) = [] :: segs := by
  induction segs with
  | nil => simp [pySplit]
  | cons q rest ih =>
    have ih' := ih (fun x hx => hsegs x (List.mem_cons_of_mem q hx))
    rw [List.map_cons, List.flatten_cons, List.cons_append, pySplit]
    rw [pySplit_append q _ [] _ (hsegs q (List.mem_cons_self q rest)) ih']
    simp

theorem fromString_cons_ne_hash {c : Char} (w : List Char) (h : c ≠ '#') :
    fromStringPointer (c :: w) =
      ((pySplit '/' (c :: w)).filter (fun x => !x.isEmpty)).map unquote_json_pointer := by
  simp only [fromStringPointer]
  split
  · rename_i heq
    injection heq with h1 _
    exact absurd h1 h
  · rfl

theorem fromString_render (a : List Seg) (h : ∀ s ∈ a, s ≠ []) :
    fromStringPointer (renderPointer a) = a := by
  cases a with
  | nil => decide
  | cons s rest =>
    have hflat : renderPointer (s :: rest) =
        (((s :: rest).map quote_json_pointer).map (fun q => '/' :: q)).flatten := by
      rw [renderPointer, if_neg (by simp), List.map_map]
      rfl
    have hsplit := @pySplit_flatten '/' ((s :: rest).map quote_json_pointer)
      (by
        intro q hq
        obtain ⟨x, _, rfl⟩ := List.mem_map.1 hq
        exact slash_not_mem_quote x)
    obtain ⟨w, hw⟩ : ∃ w, renderPointer (s :: rest) = '/' :: w := by
      rw [hflat]
      exact ⟨_, rfl⟩
    rw [hw, fromString_cons_ne_hash w (by decide), ← hw, hflat, hsplit]
    rw [List.filter_cons_of_neg (by simp)]
    rw [List.filter_eq_self.2 (by
      intro q hq
      obtain ⟨x, hx, rfl⟩ := List.mem_map.1 hq
      simpa using quote_ne_nil (h x hx))]
    rw [List.map_map]
    have hcomp : unquote_json_pointer ∘ quote_json_pointer = id := by
      funext x
      exact unquote_quote x
    rw [hcomp, List.map_id]

/-- C9: the claim as stated fails — an address with an empty segment does not
round-trip, because `from_string` discards empty components while `__str__`
renders them as consecutive slashes. Concrete input: the address
`("a", "", "b")` renders to `/a//b`, which reparses and re-renders to `/a/b`. -/
theorem C9_counterexample :
    renderPointer (fromStringPointer (renderPointer [['a'], [], ['b']])) ≠
      renderPointer [['a'], [], ['b']] := by
  decide

/-- C9 (amended): for every address whose segments are all nonempty,
`render(parse(render(a))) == render(a)` — indeed `parse(render(a)) == a` —
with `~`/`/` escaped on render and unescaped on parse. Addresses with an
empty segment are excluded: parsing drops empty components. -/
theorem C9_render_parse_render (a : List Seg) (h : ∀ s ∈ a, s ≠ []) :
    fromStringPointer (renderPointer a) = a ∧
      renderPointer (fromStringPointer (renderPointer a)) = renderPointer a := by
  refine ⟨fromString_render a h, ?_⟩
  rw [fromString_render a h]

/-- C9 witness: the round-trip theorem applied at the concrete address
`("~", "/x")`, whose rendered form exercises both escapes. -/
theorem C9_witness :
    fromStringPointer (renderPointer [['~'], ['/', 'x']]) = [['~'], ['/', 'x']] ∧
      renderPointer (fromStringPointer (renderPointer [['~'], ['/', 'x']])) =
        renderPointer [['~'], ['/', 'x']] :=
  C9_render_parse_render [['~'], ['/', 'x']] (by decide)

/-- C10: `validate_as_integer` raises the schema-structure error, tagged with
the offending address, exactly when the value is neither an int nor a float
(`isinstance(v, (int, float))` is false); every float is accepted and
silently truncated toward zero (1.5 becomes 1), and booleans, being ints,
also pass. -/
theorem C10_validate_as_integer (ctx : Addr) (v : PyValue) :
    ((∃ e, validate_as_integer ctx v = .error e ∧ e.ctx = ctx) ↔
      isIntOrFloatInstance v = false) ∧
    (∀ q : Rat, validate_as_integer ctx (.float q) = .ok (pyTruncFloat q)) ∧
    validate_as_integer ctx (.float (3 / 2)) = .ok 1 ∧
    (∀ b : Bool, validate_as_integer ctx (.bool b) = .ok (if b then 1 else 0)) := by
  refine ⟨⟨fun ⟨e, he, _⟩ => ?_, fun h => ?_⟩, fun q => rfl, ?_, fun b => rfl⟩
  · cases v <;> simp [validate_as_integer, isIntOrFloatInstance] at he ⊢
  · cases v <;> simp [isIntOrFloatInstance] at h <;>
      exact ⟨_, rfl, rfl⟩
  · show validate_as_integer ctx (.float (3 / 2)) = .ok 1
    norm_num [validate_as_integer, pyTruncFloat]
    decide

/-- C4: the claim as stated fails — `build_pseudo_name` splits the path
template on `/`, and a template starting with `/` yields a leading empty
component, hence a leading underscore: the name for `/widgets/{id}` is
`_widgets_id`, not `widgets_id`. -/
theorem C4_counterexample : build_pseudo_name "/widgets/\x7bid\x7d" ≠ "widgets_id" := by
  decide

/-- C4 (amended): the pseudo-definition name is derived from the path
template alone by splitting on `/`, stripping braces from placeholder
components, and joining with underscores — the leading `/` contributes an
empty first component, so the name for `/widgets/{id}` is exactly
`_widgets_id`. -/
theorem C4_build_pseudo_name :
    build_pseudo_name "/widgets/\x7bid\x7d" = "_widgets_id" := by
  decide

theorem alistGet_append {α β : Type} [DecidableEq α] (m : List (α × β)) (a b : α)
    (v : β) :
    alistGet (m ++ [(b, v)]) a =
      match alistGet m a with
      | some x => some x
      | Option.none => if b = a then some v else Option.none := by
  induction m with
  | nil => simp [alistGet]
  | cons kv rest ih =>
    by_cases h : kv.1 = a
    · simp [alistGet, h]
    · simpa [alistGet, h] using ih

theorem lookupSer_addOwnerAt (st : SerMap) (a t o : Addr) :
    lookupSer (addOwnerAt t o st) a =
      if a = t then
        (lookupSer st a).map (fun d => { d with owners := insertOwner o d.owners })
      else lookupSer st a := by
  induction st with
  | nil => by_cases h : a = t <;> simp [lookupSer, alistGet, addOwnerAt, h]
  | cons kv rest ih =>
    obtain ⟨k, d⟩ := kv
    rw [addOwnerAt]
    by_cases hk : k = t
    · subst hk
      rw [if_pos rfl]
      by_cases ha : k = a
      · subst ha
        simp [lookupSer, alistGet]
      · have ha' : ¬a = k := fun hh => ha hh.symm
        simp only [lookupSer, alistGet, if_neg ha] at ih ⊢
        rw [ih]
    · rw [if_neg hk]
      by_cases ha : k = a
      · subst ha
        have hat : ¬k = t := hk
        simp [lookupSer, alistGet, hat]
      · simp only [lookupSer, alistGet, if_neg ha] at ih ⊢
        rw [ih]

theorem owners_subset_insertOwner (o : Addr) (l : List Addr) :
    l ⊆ insertOwner o l := by
  unfold insertOwner
  by_cases h : o ∈ l
  · simp [h]
  · simp only [h, if_false]
    exact List.subset_append_left l [o]

theorem DescEvolves.rfl_d (d : SerializerDescriptor) : DescEvolves d d :=
  ⟨rfl, rfl, rfl, List.Subset.refl _⟩

theorem DescEvolves.trans_d {d d' d'' : SerializerDescriptor}
    (h1 : DescEvolves d d') (h2 : DescEvolves d' d'') : DescEvolves d d'' :=
  ⟨h2.1.trans h1.1, h2.2.1.trans h1.2.1, h2.2.2.1.trans h1.2.2.1,
    h1.2.2.2.trans h2.2.2.2⟩

theorem MapPreserved.rfl_m (st : SerMap) : MapPreserved st st :=
  fun _ d h => ⟨d, h, DescEvolves.rfl_d d⟩

theorem MapPreserved.trans_m {s1 s2 s3 : SerMap} (h1 : MapPreserved s1 s2)
    (h2 : MapPreserved s2 s3) : MapPreserved s1 s3 := by
  intro a d h
  obtain ⟨d', hd', he'⟩ := h1 a d h
  obtain ⟨d'', hd'', he''⟩ := h2 a d' hd'
  exact ⟨d'', hd'', DescEvolves.trans_d he' he''⟩

theorem MapPreserved.append (st : SerMap) (e : Addr × SerializerDescriptor) :
    MapPreserved st (st ++ [e]) := by
  intro a d h
  refine ⟨d, ?_, DescEvolves.rfl_d d⟩
  obtain ⟨b, v⟩ := e
  rw [lookupSer, alistGet_append]
  rw [lookupSer] at h
  rw [h]

theorem MapPreserved.addOwner (t o : Addr) (st : SerMap) :
    MapPreserved st (addOwnerAt t o st) := by
  intro a d h
  by_cases hat : a = t
  · refine ⟨{ d with owners := insertOwner o d.owners }, ?_,
      rfl, rfl, rfl, owners_subset_insertOwner o d.owners⟩
    rw [lookupSer_addOwnerAt, if_pos hat, h]
    rfl
  · refine ⟨d, ?_, DescEvolves.rfl_d d⟩
    rw [lookupSer_addOwnerAt, if_neg hat, h]

theorem MapPreserved.get_or_create' (st : SerMap) (ctx : Addr)
    (d : SerializerDescriptor) : MapPreserved st (get_or_create st ctx d) := by
  unfold get_or_create
  by_cases hl : (lookupSer st ctx).isSome
  · rw [if_pos hl]
    exact MapPreserved.rfl_m st
  · rw [if_neg hl]
    exact MapPreserved.append st _

theorem MapPreserved.register' (qctx : QualifierContext) (ctx : Addr)
    (st : SerMap) : MapPreserved st (register_owner qctx ctx st) := by
  unfold register_owner
  cases qctx.owner with
  | none => exact MapPreserved.rfl_m st
  | some o => exact MapPreserved.addOwner ctx o st

theorem MapPreserved.gcro (qctx : QualifierContext) (ctx : Addr) (st : SerMap)
    (d : SerializerDescriptor) :
    MapPreserved st (register_owner qctx ctx (get_or_create st ctx d)) :=
  MapPreserved.trans_m (MapPreserved.get_or_create' st ctx d) (MapPreserved.register' qctx ctx _)

theorem qualify_walk_preserved : ∀ fuel : Nat,
    (∀ resolver qctx sr st st',
      qualify_child_schemas_inner fuel resolver qctx sr st = .ok st' →
        MapPreserved st st') ∧
    (∀ resolver qctx name schema st st',
      qualify_child_schemas fuel resolver qctx name schema st = .ok st' →
        MapPreserved st st') ∧
    (∀ resolver meCtx props st st',
      qualify_props fuel resolver meCtx props st = .ok st' →
        MapPreserved st st') := by
  intro fuel
  induction fuel with
  | zero =>
    refine ⟨fun resolver qctx sr st st' h => ?_,
      fun resolver qctx name schema st st' h => ?_,
      fun resolver meCtx props st st' h => ?_⟩ <;>
      simp [qualify_child_schemas_inner, qualify_child_schemas, qualify_props] at h
  | succ f ih =>
    obtain ⟨ihInner, ihQ, ihProps⟩ := ih
    refine ⟨fun resolver qctx sr st st' h => ?_,
      fun resolver qctx name schema st st' h => ?_,
      fun resolver meCtx props st st' h => ?_⟩
    · simp only [qualify_child_schemas_inner.eq_def] at h
      repeat (any_goals split at h)
      all_goals first
        | (cases h <;> exact MapPreserved.rfl_m _)
        | exact ihQ _ _ _ _ _ _ h
    · simp only [qualify_child_schemas.eq_def] at h
      repeat (any_goals split at h)
      all_goals first
        | (cases h <;> exact MapPreserved.rfl_m _)
        | exact MapPreserved.trans_m (MapPreserved.gcro _ _ _ _) (ihProps _ _ _ _ _ h)
        | exact MapPreserved.trans_m (MapPreserved.gcro _ _ _ _) (ihInner _ _ _ _ _ h)
        | exact ihInner _ _ _ _ _ h
    · rw [qualify_props.eq_def, show f + 1 = Nat.succ f from rfl] at h
      repeat (any_goals split at h)
      all_goals first
        | (cases h <;> exact MapPreserved.rfl_m _)
        | (rename_i fuel1 f1 heq1 props1 pname1 p1 rest1 x1 stm heqs
           ; have hf := Nat.succ.inj heq1
           ; subst hf
           ; exact MapPreserved.trans_m (ihInner _ _ _ _ _ heqs)
               (ihProps _ _ _ _ _ h))

theorem get_or_create_of_none {st : SerMap} {ctx : Addr}
    (hnone : lookupSer st ctx = Option.none) (d : SerializerDescriptor) :
    get_or_create st ctx d = st ++ [(ctx, d)] := by
  unfold get_or_create
  rw [hnone]
  rfl

theorem lookup_append_self {st : SerMap} {ctx : Addr}
    (hnone : lookupSer st ctx = Option.none) (d : SerializerDescriptor) :
    lookupSer (st ++ [(ctx, d)]) ctx = some d := by
  rw [lookupSer, alistGet_append]
  rw [lookupSer] at hnone
  rw [hnone]
  simp

theorem qualify_object_creates (fuel : Nat) (resolver : Resolver)
    (qctx : QualifierContext) (name : String) (ctx : Addr) (fm : Option String)
    (pr : Option (List (String × SchemaNode))) (rq : Option (List String))
    (it : Option SchemaNode) (dn : Option String) (st st' : SerMap)
    (h : qualify_child_schemas fuel resolver qctx name
      (.schema ctx .object fm pr rq it dn) st = .ok st')
    (hnone : lookupSer st ctx = Option.none) :
    ∃ d', lookupSer st' ctx = some d' ∧ d'.name = name ∧
      d'.schema = SchemaNode.schema ctx .object fm pr rq it dn := by
  cases fuel with
  | zero => simp [qualify_child_schemas] at h
  | succ f =>
    simp only [qualify_child_schemas.eq_def, if_true] at h
    cases pr with
    | none => cases h
    | some props =>
      rw [get_or_create_of_none hnone] at h
      obtain ⟨d1, hd1, he1⟩ :=
        MapPreserved.register' qctx ctx _ ctx _ (lookup_append_self hnone _)
      obtain ⟨d', hd', he'⟩ := (qualify_walk_preserved f).2.2 _ _ _ _ _ h ctx d1 hd1
      exact ⟨d', hd', by rw [he'.2.1, he1.2.1], by rw [he'.1, he1.1]⟩

/-- C1: during binding-descriptor graph construction, at most one descriptor
exists per distinct schema address. (1) Every descriptor present before a
qualification visit is still present afterwards, under the same address and
with the same schema, name and collection marker — the visit never replaces
it, it can only extend its owner set. (2) A first visit of an object shape
whose address is unbound creates the descriptor under that address with the
visit's name and schema. (3) Registering the same owner twice is idempotent.
(4) Concretely, an object shape `S` reachable through properties of both `A`
and `B` ends with exactly one descriptor at `S`'s address whose owner set
holds both callers. -/
theorem C1_descriptor_identity :
    (∀ fuel resolver qctx name schema st st',
      qualify_child_schemas fuel resolver qctx name schema st = .ok st' →
      ∀ a d, lookupSer st a = some d →
        ∃ d', lookupSer st' a = some d' ∧ d'.schema = d.schema ∧
          d'.name = d.name ∧ d'.many = d.many ∧ d.owners ⊆ d'.owners) ∧
    (∀ fuel resolver qctx name ctx fm pr rq it dn st st',
      qualify_child_schemas fuel resolver qctx name
          (.schema ctx .object fm pr rq it dn) st = .ok st' →
      lookupSer st ctx = Option.none →
        ∃ d', lookupSer st' ctx = some d' ∧ d'.name = name ∧
          d'.schema = SchemaNode.schema ctx .object fm pr rq it dn) ∧
    (∀ (o : Addr) (l : List Addr), insertOwner o (insertOwner o l) = insertOwner o l) ∧
    ((qualify_child_schemas 10 exC1_resolver {} "A" exC1_A [] >>=
        qualify_child_schemas 10 exC1_resolver {} "B" exC1_B).map
      (fun st => ((lookupSer st exC1_ctxS).map (fun d => (d.name, d.owners)),
        (st.map Prod.fst).count exC1_ctxS)) =
      .ok (some ("S", [exC1_ctxA, exC1_ctxB]), 1)) := by
  refine ⟨?_, ?_, ?_, ?_⟩
  · intro fuel resolver qctx name schema st st' h a d hd
    obtain ⟨d', hl, he⟩ := (qualify_walk_preserved fuel).2.1 _ _ _ _ _ _ h a d hd
    exact ⟨d', hl, he.1, he.2.1, he.2.2.1, he.2.2.2⟩
  · intro fuel resolver qctx name ctx fm pr rq it dn st st' h hn
    exact qualify_object_creates fuel resolver qctx name ctx fm pr rq it dn st st' h hn
  · intro o l
    by_cases h : o ∈ l
    · simp [insertOwner, h]
    · simp [insertOwner, h]
  · rfl

/-- C1 witness: the preservation and creation conjuncts applied at a
concrete input — qualifying definition `B` over a state that already holds
the descriptor for `S` keeps that descriptor (same schema, name, marker)
and only grows its owner set, and the first qualification of `A` creates
`A`'s descriptor. -/
theorem C1_witness :
    ∃ st1, qualify_child_schemas 10 exC1_resolver {} "A" exC1_A [] = .ok st1 ∧
      (∃ dS, lookupSer st1 exC1_ctxS = some dS ∧
        (∃ st2, qualify_child_schemas 10 exC1_resolver {} "B" exC1_B st1 = .ok st2 ∧
          ∃ d', lookupSer st2 exC1_ctxS = some d' ∧ d'.schema = dS.schema ∧
            d'.name = dS.name ∧ d'.many = dS.many ∧ dS.owners ⊆ d'.owners)) ∧
      (∃ dA, lookupSer st1 exC1_ctxA = some dA ∧ dA.name = "A" ∧
        dA.schema = SchemaNode.schema exC1_ctxA .object Option.none
          (some [("x", .ref ["definitions", "A", "properties", "x"] exC1_ctxS)])
          Option.none Option.none (some "A")) := by
  refine ⟨_, rfl, ⟨_, rfl, ?_⟩, ⟨_, rfl, rfl, rfl⟩⟩
  refine ⟨_, rfl, ?_⟩
  exact C1_descriptor_identity.1 10 exC1_resolver {} "B" exC1_B _ _ rfl
    exC1_ctxS _ rfl

theorem exists_mem_cons {α : Type} {p : α → Prop} {a : α} {l : List α} :
    (∃ x ∈ a :: l, p x) ↔ p a ∨ ∃ x ∈ l, p x := by
  constructor
  · rintro ⟨x, hx, hp⟩
    rcases List.mem_cons.1 hx with rfl | hx'
    · exact Or.inl hp
    · exact Or.inr ⟨x, hx', hp⟩
  · rintro (hp | ⟨x, hx, hp⟩)
    · exact ⟨a, List.mem_cons_self a l, hp⟩
    · exact ⟨x, List.mem_cons_of_mem a hx, hp⟩

theorem mem_setInsert {α : Type} [DecidableEq α] (b a : α) (l : List α) :
    b ∈ setInsert a l ↔ b = a ∨ b ∈ l := by
  unfold setInsert
  by_cases h : a ∈ l
  · simp only [if_pos h]
    constructor
    · exact Or.inr
    · rintro (rfl | hb)
      · exact h
      · exact hb
  · simp [h, or_comm]

theorem alistGet_alistSet {α β : Type} [DecidableEq α] (m : List (α × β)) (k : α)
    (v : β) (k' : α) :
    alistGet (alistSet m k v) k' = if k = k' then some v else alistGet m k' := by
  induction m with
  | nil => simp [alistSet, alistGet]
  | cons kv rest ih =>
    obtain ⟨k0, w⟩ := kv
    rw [alistSet]
    by_cases h0 : k0 = k
    · subst h0
      rw [if_pos rfl]
      by_cases h' : k0 = k'
      · subst h'
        simp [alistGet]
      · simp [alistGet, h']
    · rw [if_neg h0]
      by_cases h' : k0 = k'
      · subst h'
        have hkk : ¬k = k0 := fun hh => h0 hh.symm
        simp [alistGet, hkk]
      · simp [alistGet, h', ih]

theorem pass1_resps_cons (n : String) (acc : Pass1Acc) (rr : String × Response)
    (rest : List (String × Response)) :
    pass1_resps n acc (rr :: rest) = pass1_resps n (pass1_resp n acc rr) rest := rfl

theorem pass1_resps_fst (n : String) (rs : List (String × Response)) :
    ∀ acc a, a ∈ (pass1_resps n acc rs).1 ↔
      a ∈ acc.1 ∨ ∃ rr ∈ rs, RespRefOcc rr a := by
  induction rs with
  | nil => intro acc a; simp [pass1_resps]
  | cons rr rest ih =>
    intro acc a
    rw [pass1_resps_cons, ih, exists_mem_cons]
    cases hs : rr.2.schema with
    | none => simp [pass1_resp, hs, RespRefOcc]
    | some s =>
      cases s with
      | ref c r =>
        simp only [pass1_resp, hs, mem_setInsert, RespRefOcc, Option.some.injEq,
          SchemaNode.ref.injEq]
        constructor
        · rintro ((rfl | hb) | hrest)
          · exact Or.inr (Or.inl ⟨c, rfl, rfl⟩)
          · exact Or.inl hb
          · exact Or.inr (Or.inr hrest)
        · rintro (hb | (⟨c', _, rfl⟩ | hrest))
          · exact Or.inl (Or.inr hb)
          · exact Or.inl (Or.inl rfl)
          · exact Or.inr hrest
      | schema c t fm prs rq it dn =>
        simp [pass1_resp, hs, RespRefOcc]

theorem pass1_resps_snd_sound (n : String) (rs : List (String × Response)) :
    ∀ acc c d, alistGet (pass1_resps n acc rs).2 c = some d →
      alistGet acc.2 c = some d ∨ ∃ rr ∈ rs, RespInlineDef rr c (build_pseudo_name n) d := by
  induction rs with
  | nil => intro acc c d h; exact Or.inl h
  | cons rr rest ih =>
    intro acc c d h
    rw [pass1_resps_cons] at h
    rcases ih _ _ _ h with h' | ⟨rr', hm, hdef⟩
    · cases hs : rr.2.schema with
      | none => rw [pass1_resp, hs] at h'; exact Or.inl h'
      | some s =>
        cases s with
        | ref cc r => rw [pass1_resp, hs] at h'; exact Or.inl h'
        | schema c0 t fm prs rq it dn =>
          rw [pass1_resp, hs] at h'
          simp only at h'
          rw [alistGet_alistSet] at h'
          by_cases hc : c0 = c
          · subst hc
            rw [if_pos rfl] at h'
            refine Or.inr ⟨rr, List.mem_cons_self rr rest, t, fm, prs, rq, it, dn, hs, ?_⟩
            exact (Option.some.inj h').symm
          · rw [if_neg hc] at h'
            exact Or.inl h'
    · exact Or.inr ⟨rr', List.mem_cons_of_mem rr hm, hdef⟩

theorem pass1_resps_snd_mono (n : String) (rs : List (String × Response)) :
    ∀ acc c, (alistGet acc.2 c).isSome →
      (alistGet (pass1_resps n acc rs).2 c).isSome := by
  induction rs with
  | nil => intro acc c h; exact h
  | cons rr rest ih =>
    intro acc c h
    rw [pass1_resps_cons]
    refine ih _ _ ?_
    cases hs : rr.2.schema with
    | none => rw [pass1_resp, hs]; exact h
    | some s =>
      cases s with
      | ref cc r => rw [pass1_resp, hs]; exact h
      | schema c0 t fm prs rq it dn =>
        rw [pass1_resp, hs]
        simp only
        rw [alistGet_alistSet]
        by_cases hc : c0 = c
        · rw [if_pos hc]; rfl
        · rw [if_neg hc]; exact h

theorem pass1_resps_snd_complete (n : String) (rs : List (String × Response)) :
    ∀ acc c, (∃ rr ∈ rs, RespInlineOcc rr c) →
      (alistGet (pass1_resps n acc rs).2 c).isSome := by
  induction rs with
  | nil => rintro acc c ⟨rr, hm, _⟩; cases hm
  | cons rr rest ih =>
    rintro acc c ⟨rr', hm, hocc⟩
    rw [pass1_resps_cons]
    rcases List.mem_cons.1 hm with rfl | hm'
    · obtain ⟨t, fm, prs, rq, it, dn, hs⟩ := hocc
      refine pass1_resps_snd_mono n rest _ c ?_
      rw [pass1_resp, hs]
      simp only
      rw [alistGet_alistSet, if_pos rfl]
      rfl
    · exact ih _ _ ⟨rr', hm', hocc⟩

theorem pass1_verbs_fst (n : String) (vs : List (HttpVerb × Verb)) :
    ∀ acc a, a ∈ (vs.foldl (pass1_verb n) acc).1 ↔
      a ∈ acc.1 ∨ ∃ vv ∈ vs, vv.2.function_name ≠ Option.none ∧
        ∃ rr ∈ vv.2.responses, RespRefOcc rr a := by
  induction vs with
  | nil => intro acc a; simp
  | cons vv rest ih =>
    intro acc a
    rw [List.foldl_cons, ih, exists_mem_cons]
    cases hf : vv.2.function_name with
    | none => simp [pass1_verb, hf]
    | some fn =>
      rw [show pass1_verb n acc vv = pass1_resps n acc vv.2.responses from by
        rw [pass1_verb, hf]]
      rw [pass1_resps_fst]
      constructor
      · rintro ((h | h) | h)
        · exact Or.inl h
        · exact Or.inr (Or.inl ⟨by simp [hf], h⟩)
        · exact Or.inr (Or.inr h)
      · rintro (h | (⟨_, h⟩ | h))
        · exact Or.inl (Or.inl h)
        · exact Or.inl (Or.inr h)
        · exact Or.inr h

theorem pass1_verbs_snd_sound (n : String) (vs : List (HttpVerb × Verb)) :
    ∀ acc c d, alistGet (vs.foldl (pass1_verb n) acc).2 c = some d →
      alistGet acc.2 c = some d ∨ ∃ vv ∈ vs, vv.2.function_name ≠ Option.none ∧
        ∃ rr ∈ vv.2.responses, RespInlineDef rr c (build_pseudo_name n) d := by
  induction vs with
  | nil => intro acc c d h; exact Or.inl h
  | cons vv rest ih =>
    intro acc c d h
    rw [List.foldl_cons] at h
    rcases ih _ _ _ h with h' | ⟨vv', hm, hf', hr'⟩
    · cases hf : vv.2.function_name with
      | none => rw [pass1_verb, hf] at h'; exact Or.inl h'
      | some fn =>
        rw [pass1_verb, hf] at h'
        rcases pass1_resps_snd_sound n _ _ _ _ h' with h'' | ⟨rr, hm, hdef⟩
        · exact Or.inl h''
        · exact Or.inr ⟨vv, List.mem_cons_self vv rest, by simp [hf], rr, hm, hdef⟩
    · exact Or.inr ⟨vv', List.mem_cons_of_mem vv hm, hf', hr'⟩

theorem pass1_verbs_snd_mono (n : String) (vs : List (HttpVerb × Verb)) :
    ∀ acc c, (alistGet acc.2 c).isSome →
      (alistGet (vs.foldl (pass1_verb n) acc).2 c).isSome := by
  induction vs with
  | nil => intro acc c h; exact h
  | cons vv rest ih =>
    intro acc c h
    rw [List.foldl_cons]
    refine ih _ _ ?_
    cases hf : vv.2.function_name with
    | none => rw [pass1_verb, hf]; exact h
    | some fn =>
      rw [pass1_verb, hf]
      exact pass1_resps_snd_mono n _ _ _ h

theorem pass1_verbs_snd_complete (n : String) (vs : List (HttpVerb × Verb)) :
    ∀ acc c, (∃ vv ∈ vs, vv.2.function_name ≠ Option.none ∧
        ∃ rr ∈ vv.2.responses, RespInlineOcc rr c) →
      (alistGet (vs.foldl (pass1_verb n) acc).2 c).isSome := by
  induction vs with
  | nil => rintro acc c ⟨vv, hm, _⟩; cases hm
  | cons vv rest ih =>
    rintro acc c ⟨vv', hm, hf', hocc'⟩
    rw [List.foldl_cons]
    rcases List.mem_cons.1 hm with rfl | hm'
    · refine pass1_verbs_snd_mono n rest _ c ?_
      cases hf : vv'.2.function_name with
      | none => exact absurd hf hf'
      | some fn =>
        rw [pass1_verb, hf]
        exact pass1_resps_snd_complete n _ _ _ hocc'
    · exact ih _ _ ⟨vv', hm', hf', hocc'⟩

/-- Occurrence of a flagged-verb response in a whole spec satisfying `P`. -/
def SpecRespOcc (spec : OpenAPISpec)
    (P : Path → (String × Response) → Prop) : Prop :=
  ∃ p ∈ spec.paths, ∃ vv ∈ p.verbs, vv.2.function_name ≠ Option.none ∧
    ∃ rr ∈ vv.2.responses, P p rr

theorem pass1_paths_fst (ps : List Path) :
    ∀ acc a, a ∈ (ps.foldl pass1_path acc).1 ↔
      a ∈ acc.1 ∨ ∃ p ∈ ps, ∃ vv ∈ p.verbs, vv.2.function_name ≠ Option.none ∧
        ∃ rr ∈ vv.2.responses, RespRefOcc rr a := by
  induction ps with
  | nil => intro acc a; simp
  | cons p rest ih =>
    intro acc a
    rw [List.foldl_cons, ih, exists_mem_cons]
    rw [show pass1_path acc p = p.verbs.foldl (pass1_verb p.path) acc from rfl]
    rw [pass1_verbs_fst]
    exact or_assoc

theorem pass1_paths_snd_sound (ps : List Path) :
    ∀ acc c d, alistGet (ps.foldl pass1_path acc).2 c = some d →
      alistGet acc.2 c = some d ∨ ∃ p ∈ ps, ∃ vv ∈ p.verbs,
        vv.2.function_name ≠ Option.none ∧
        ∃ rr ∈ vv.2.responses, RespInlineDef rr c (build_pseudo_name p.path) d := by
  induction ps with
  | nil => intro acc c d h; exact Or.inl h
  | cons p rest ih =>
    intro acc c d h
    rw [List.foldl_cons] at h
    rcases ih _ _ _ h with h' | ⟨p', hm, hin⟩
    · rw [show pass1_path acc p = p.verbs.foldl (pass1_verb p.path) acc from rfl] at h'
      rcases pass1_verbs_snd_sound _ _ _ _ _ h' with h'' | ⟨vv, hmv, hf, hr⟩
      · exact Or.inl h''
      · exact Or.inr ⟨p, List.mem_cons_self p rest, vv, hmv, hf, hr⟩
    · exact Or.inr ⟨p', List.mem_cons_of_mem p hm, hin⟩

theorem pass1_paths_snd_mono (ps : List Path) :
    ∀ acc c, (alistGet acc.2 c).isSome →
      (alistGet (ps.foldl pass1_path acc).2 c).isSome := by
  induction ps with
  | nil => intro acc c h; exact h
  | cons p rest ih =>
    intro acc c h
    rw [List.foldl_cons]
    exact ih _ _ (pass1_verbs_snd_mono _ _ _ _ h)

theorem pass1_paths_snd_complete (ps : List Path) :
    ∀ acc c, (∃ p ∈ ps, ∃ vv ∈ p.verbs, vv.2.function_name ≠ Option.none ∧
        ∃ rr ∈ vv.2.responses, RespInlineOcc rr c) →
      (alistGet (ps.foldl pass1_path acc).2 c).isSome := by
  induction ps with
  | nil => rintro acc c ⟨p, hm, _⟩; cases hm
  | cons p rest ih =>
    rintro acc c ⟨p', hm, hin⟩
    rw [List.foldl_cons]
    rcases List.mem_cons.1 hm with rfl | hm'
    · exact pass1_paths_snd_mono rest _ c (pass1_verbs_snd_complete _ _ _ _ hin)
    · exact ih _ _ ⟨p', hm', hin⟩

/-- C2: the claim as stated fails — Pass 1 of `build_serializers` iterates
over every response of a flagged verb, not only the one with status "200".
Concretely, a spec whose single flagged verb carries a single response with
status code "404" and a reference schema still gets that reference marked
important. -/
theorem C2_counterexample :
    (build_serializers_pass1 exC2_spec).1 = [exC2_addrT] ∧
    exC2_spec.paths.map (fun p => p.verbs.map (fun vv =>
      vv.2.responses.map (fun rr => rr.2.status_code))) = [[["404"]]] ∧
    "404" ≠ "200" := by
  refine ⟨rfl, rfl, by decide⟩

/-- C2 (amended): in Pass 1 of `build_serializers`, for every verb carrying
a generator-directed function name, EVERY response with a schema is
examined, regardless of its status code: a reference schema marks its
referenced address important (and only such responses do), an inline schema
synthesizes a pseudo-definition — a `Definition` cloned from the inline
schema, named from the path template, keyed by the inline schema's own
address — and responses of verbs without a function name contribute
nothing. -/
theorem C2_pass1_examines_every_response (spec : OpenAPISpec) :
    (∀ a, a ∈ (build_serializers_pass1 spec).1 ↔
      SpecRespOcc spec (fun _ rr => RespRefOcc rr a)) ∧
    (∀ c d, alistGet (build_serializers_pass1 spec).2 c = some d →
      SpecRespOcc spec (fun p rr => RespInlineDef rr c (build_pseudo_name p.path) d)) ∧
    (∀ c, SpecRespOcc spec (fun _ rr => RespInlineOcc rr c) →
      (alistGet (build_serializers_pass1 spec).2 c).isSome) := by
  refine ⟨?_, ?_, ?_⟩
  · intro a
    rw [show build_serializers_pass1 spec = spec.paths.foldl pass1_path ([], []) from rfl,
      pass1_paths_fst]
    simp [SpecRespOcc]
  · intro c d h
    rw [show build_serializers_pass1 spec = spec.paths.foldl pass1_path ([], []) from rfl] at h
    rcases pass1_paths_snd_sound _ _ _ _ h with h' | hocc
    · simp [alistGet] at h'
    · exact hocc
  · intro c hocc
    rw [show build_serializers_pass1 spec = spec.paths.foldl pass1_path ([], []) from rfl]
    exact pass1_paths_snd_complete _ _ _ hocc

theorem mapOption_eq_some_iff {α β : Type} (f : α → Option β) (l : List α) :
    ∀ bs, mapOption f l = some bs ↔
      List.Forall₂ (fun a b => f a = some b) l bs := by
  induction l with
  | nil => intro bs; cases bs <;> simp [mapOption]
  | cons a l ih =>
    intro bs
    simp only [mapOption, Option.bind_eq_some, Option.map_eq_some',
      List.forall₂_cons_left_iff]
    constructor
    · rintro ⟨b, hb, bs', hbs', rfl⟩
      exact ⟨b, bs', hb, (ih bs').1 hbs', rfl⟩
    · rintro ⟨b, bs', hb, hf2, rfl⟩
      exact ⟨b, hb, bs', (ih bs').2 hf2, rfl⟩

theorem forall₂_map_fst {α β : Type} {xs : List α} {l : List (α × β)}
    (h : List.Forall₂ (fun a b => Prod.fst b = a) xs l) : l.map Prod.fst = xs := by
  induction h with
  | nil => rfl
  | cons hab _ ih => simp_all

theorem insertDesc_perm {α : Type} (x : α × Nat) (l : List (α × Nat)) :
    List.Perm (insertDesc x l) (x :: l) := by
  induction l with
  | nil => exact List.Perm.refl _
  | cons y rest ih =>
    rw [insertDesc]
    by_cases h : y.2 ≤ x.2
    · rw [if_pos h]
    · rw [if_neg h]
      exact (ih.cons y).trans (List.Perm.swap x y rest)

theorem sortDescStable_perm {α : Type} (l : List (α × Nat)) :
    List.Perm (sortDescStable l) l := by
  induction l with
  | nil => exact List.Perm.refl _
  | cons x rest ih =>
    rw [sortDescStable]
    exact (insertDesc_perm x _).trans (ih.cons x)

theorem mem_insertDesc {α : Type} {z x : α × Nat} {l : List (α × Nat)} :
    z ∈ insertDesc x l ↔ z = x ∨ z ∈ l := by
  have := @List.Perm.mem_iff _ z _ _ (insertDesc_perm x l)
  simpa using this

theorem pairwise_insertDesc {α : Type} (x : α × Nat) (l : List (α × Nat))
    (h : List.Pairwise (fun p q : α × Nat => q.2 ≤ p.2) l) :
    List.Pairwise (fun p q : α × Nat => q.2 ≤ p.2) (insertDesc x l) := by
  induction l with
  | nil => simp [insertDesc]
  | cons y rest ih =>
    rw [insertDesc]
    rcases List.pairwise_cons.1 h with ⟨hy, hrest⟩
    by_cases hc : y.2 ≤ x.2
    · rw [if_pos hc]
      refine List.Pairwise.cons ?_ h
      intro z hz
      rcases List.mem_cons.1 hz with rfl | hz'
      · exact hc
      · exact le_trans (hy z hz') hc
    · rw [if_neg hc]
      refine List.Pairwise.cons ?_ (ih hrest)
      intro z hz
      rcases mem_insertDesc.1 hz with rfl | hz'
      · omega
      · exact hy z hz'

theorem sortDescStable_pairwise {α : Type} (l : List (α × Nat)) :
    List.Pairwise (fun p q : α × Nat => q.2 ≤ p.2) (sortDescStable l) := by
  induction l with
  | nil => simp [sortDescStable]
  | cons x rest ih =>
    rw [sortDescStable]
    exact pairwise_insertDesc x _ ih

theorem filter_insertDesc {α : Type} (v : Nat) (x : α × Nat) (l : List (α × Nat)) :
    (insertDesc x l).filter (fun y => y.2 == v) =
      if x.2 == v then x :: l.filter (fun y => y.2 == v)
      else l.filter (fun y => y.2 == v) := by
  induction l with
  | nil =>
    rw [insertDesc]
    by_cases hx : (x.2 == v) <;> simp [List.filter, hx]
  | cons y rest ih =>
    rw [insertDesc]
    by_cases hc : y.2 ≤ x.2
    · rw [if_pos hc, List.filter_cons]
    · rw [if_neg hc, List.filter_cons, List.filter_cons, ih]
      by_cases hy : (y.2 == v)
      · have hx : ¬(x.2 == v) = true := by
          have h2 : y.2 = v := by simpa using hy
          simp only [beq_iff_eq]
          omega
        simp [hy, hx]
      · by_cases hx : (x.2 == v) <;> simp [hy, hx]

theorem sortDescStable_filter {α : Type} (v : Nat) (l : List (α × Nat)) :
    (sortDescStable l).filter (fun y => y.2 == v) =
      l.filter (fun y => y.2 == v) := by
  induction l with
  | nil => rfl
  | cons x rest ih =>
    rw [sortDescStable, filter_insertDesc, List.filter_cons]
    by_cases hx : (x.2 == v) <;> simp [hx, ih]

/-- C5: `eval_weights` assigns each descriptor the weight 1 plus the sum of
its owners' weights (a fuel parameter standing for the termination of the
memoized recursion on an acyclic ownership graph), so a descriptor with no
owners has weight exactly 1; the weight list is produced in discovery
(dict-insertion) order; and the emission order is the stable descending
sort of that list — a permutation, sorted by descending weight, with ties
(equal weights) kept in discovery order. The closing conjunct computes the
two-owner scenario: `S` (weight 3) precedes `A` and `B` (weight 1 each),
which keep their discovery order. -/
theorem C5_weights_and_emission :
    (∀ (f : Nat) (m : SerMap) (d : SerializerDescriptor) (w : Nat),
      eval_weight_fuel (f + 1) m d = some w →
      ∃ ws, List.Forall₂ (fun a wo => ∃ od, lookupSer m a = some od ∧
        eval_weight_fuel f m od = some wo) d.owners ws ∧ w = ws.sum + 1) ∧
    (∀ (f : Nat) (m : SerMap) (d : SerializerDescriptor), d.owners = [] →
      eval_weight_fuel (f + 1) m d = some 1) ∧
    (∀ (f : Nat) (m : SerMap) (l : List (SerializerDescriptor × Nat)),
      eval_weights f m = some l → l.map Prod.fst = m.map Prod.snd) ∧
    (∀ (l : List (SerializerDescriptor × Nat)), List.Perm (sortDescStable l) l) ∧
    (∀ (l : List (SerializerDescriptor × Nat)),
      List.Pairwise (fun p q => q.2 ≤ p.2) (sortDescStable l)) ∧
    (∀ (l : List (SerializerDescriptor × Nat)) (v : Nat),
      (sortDescStable l).filter (fun y => y.2 == v) = l.filter (fun y => y.2 == v)) ∧
    ((eval_weights 5 exC5_m).map
        (fun l => (sortDescStable l).map (fun p => (p.1.name, p.2))) =
      some [("S", 3), ("A", 1), ("B", 1)]) := by
  refine ⟨?_, ?_, ?_, sortDescStable_perm, sortDescStable_pairwise,
    fun l v => sortDescStable_filter v l, rfl⟩
  · intro f m d w h
    rw [eval_weight_fuel, Option.map_eq_some'] at h
    obtain ⟨ws, hws, hsum⟩ := h
    refine ⟨ws, ?_, hsum.symm⟩
    refine ((mapOption_eq_some_iff _ _ ws).1 hws).imp ?_
    intro a wo hawo
    rw [Option.bind_eq_some] at hawo
    exact hawo
  · intro f m d h
    rw [eval_weight_fuel, h]
    simp [mapOption]
  · intro f m l h
    refine forall₂_map_fst (((mapOption_eq_some_iff _ _ l).1 h).imp ?_)
    intro d p hdp
    rw [Option.map_eq_some'] at hdp
    obtain ⟨w, _, hw⟩ := hdp
    rw [← hw]

theorem alistGet_append_of_some {α β : Type} [DecidableEq α]
    {m : List (α × β)} {a : α} {v : β} (h : alistGet m a = some v)
    (e : α × β) : alistGet (m ++ [e]) a = some v := by
  obtain ⟨b, w⟩ := e
  rw [alistGet_append, h]

theorem alistGet_append_new {α β : Type} [DecidableEq α]
    {m : List (α × β)} {a : α} (h : alistGet m a = Option.none) (v : β) :
    alistGet (m ++ [(a, v)]) a = some v := by
  rw [alistGet_append, h]
  simp

theorem alistGet_append_none_ne {α β : Type} [DecidableEq α]
    {m : List (α × β)} {a b : α} (h : alistGet m a = Option.none)
    (hne : ¬b = a) (v : β) :
    alistGet (m ++ [(b, v)]) a = Option.none := by
  rw [alistGet_append, h]
  show (if b = a then some v else Option.none) = Option.none
  exact if_neg hne

theorem add_param_eq_some (m : List (String × JSONType)) (p : Parameter)
    (pt : JSONType) (hg : alistGet m p.name = some pt) :
    add_param m p =
      if p.type_ ≠ some pt then .error .unsupportedSchema else .ok m := by
  unfold add_param
  rw [hg]

theorem add_param_eq_none (m : List (String × JSONType)) (p : Parameter)
    (hg : alistGet m p.name = Option.none) :
    add_param m p = .ok (m ++ [(p.name, p.type_.getD .string)]) := by
  unfold add_param
  rw [hg]

theorem render_component_eval_none (pd : List (String × JSONType)) (c : String)
    (hp : IsPlaceholderStr c)
    (hg : alistGet pd (stripFirstLast c) = Option.none) :
    render_component pd c = .error .unsupportedSchema := by
  unfold render_component
  rw [if_pos hp, hg]

theorem render_component_eval_some (pd : List (String × JSONType)) (c : String)
    (pt : JSONType) (hp : IsPlaceholderStr c)
    (hg : alistGet pd (stripFirstLast c) = some pt) :
    render_component pd c =
      match JSON_TYPE_TO_PYTHON_TYPE pt with
      | Option.none => .error .unsupportedSchema
      | some ppt => .ok ("<" ++ ppt ++ ":" ++ stripFirstLast c ++ ">") := by
  unfold render_component
  rw [if_pos hp, hg]

theorem render_component_eval_lit (pd : List (String × JSONType)) (c : String)
    (hp : ¬IsPlaceholderStr c) : render_component pd c = .ok c := by
  unfold render_component
  rw [if_neg hp]

theorem radup_eval_ok (path : Path) (m : List (String × JSONType))
    (hm : build_param_dict path.verbs = .ok m) :
    render_as_django_url_pattern path =
      match render_components m (effComponents path.path) with
      | .error e => .error e
      | .ok rcs => .ok (String.intercalate "/" rcs) := by
  unfold render_as_django_url_pattern
  rw [hm]

theorem radup_eval_err (path : Path) (e : GenError)
    (hm : build_param_dict path.verbs = .error e) :
    render_as_django_url_pattern path = .error e := by
  unfold render_as_django_url_pattern
  rw [hm]

theorem add_param_cases {m : List (String × JSONType)} {p : Parameter}
    {m' : List (String × JSONType)} (h : add_param m p = .ok m') :
    (∃ pt, alistGet m p.name = some pt ∧ p.type_ = some pt ∧ m' = m) ∨
    (alistGet m p.name = Option.none ∧
      m' = m ++ [(p.name, p.type_.getD .string)]) := by
  cases hg : alistGet m p.name with
  | some pt =>
    rw [add_param_eq_some m p pt hg] at h
    by_cases ht : p.type_ ≠ some pt
    · rw [if_pos ht] at h
      cases h
    · rw [if_neg ht] at h
      injection h with hmm
      exact Or.inl ⟨pt, rfl, not_not.1 ht, hmm.symm⟩
  | none =>
    rw [add_param_eq_none m p hg] at h
    injection h with hmm
    exact Or.inr ⟨rfl, hmm.symm⟩

theorem add_params_preserve : ∀ (ps : List Parameter) (m m' : List (String × JSONType)),
    add_params m ps = .ok m' → ∀ name t, alistGet m name = some t →
      alistGet m' name = some t := by
  intro ps
  induction ps with
  | nil =>
    intro m m' h name t hg
    injection h with hmm
    rw [← hmm]
    exact hg
  | cons p rest ih =>
    intro m m' h name t hg
    rw [add_params] at h
    cases hstep : add_param m p with
    | error e => rw [hstep] at h; cases h
    | ok m1 =>
      rw [hstep] at h
      rcases add_param_cases hstep with ⟨pt, _, _, rfl⟩ | ⟨_, rfl⟩
      · exact ih _ _ h name t hg
      · exact ih _ _ h name t (alistGet_append_of_some hg _)

theorem add_params_occ : ∀ (ps : List Parameter) (m m' : List (String × JSONType)),
    add_params m ps = .ok m' → ∀ p ∈ ps,
      ∃ t, alistGet m' p.name = some t ∧
        (p.type_ = some t ∨ p.type_ = Option.none) := by
  intro ps
  induction ps with
  | nil => intro m m' _ p hp; cases hp
  | cons p0 rest ih =>
    intro m m' h p hp
    rw [add_params] at h
    cases hstep : add_param m p0 with
    | error e => rw [hstep] at h; cases h
    | ok m1 =>
      rw [hstep] at h
      rcases List.mem_cons.1 hp with rfl | hp'
      · rcases add_param_cases hstep with ⟨pt, hg, htp, rfl⟩ | ⟨hg, rfl⟩
        · exact ⟨pt, add_params_preserve rest _ _ h _ _ hg, Or.inl htp⟩
        · refine ⟨p.type_.getD .string,
            add_params_preserve rest _ _ h _ _ (alistGet_append_new hg _), ?_⟩
          cases p.type_ with
          | none => exact Or.inr rfl
          | some u => exact Or.inl rfl
      · exact ih _ _ h p hp'

theorem add_params_sound : ∀ (ps : List Parameter) (m m' : List (String × JSONType)),
    add_params m ps = .ok m' → ∀ name t, alistGet m' name = some t →
      alistGet m name = some t ∨
        ∃ p ∈ ps, p.name = name ∧ p.type_.getD .string = t := by
  intro ps
  induction ps with
  | nil =>
    intro m m' h name t hg
    injection h with hmm
    rw [hmm]
    exact Or.inl hg
  | cons p0 rest ih =>
    intro m m' h name t hg
    rw [add_params] at h
    cases hstep : add_param m p0 with
    | error e => rw [hstep] at h; cases h
    | ok m1 =>
      rw [hstep] at h
      rcases add_param_cases hstep with ⟨pt, _, _, rfl⟩ | ⟨hgn, rfl⟩
      · rcases ih _ _ h name t hg with h' | ⟨p, hp, hh⟩
        · exact Or.inl h'
        · exact Or.inr ⟨p, List.mem_cons_of_mem p0 hp, hh⟩
      · rcases ih _ _ h name t hg with h' | ⟨p, hp, hh⟩
        · cases hgm : alistGet m name with
          | some x =>
            rw [alistGet_append_of_some hgm _] at h'
            exact Or.inl h'
          | none =>
            by_cases hne : p0.name = name
            · rw [hne] at h'
              rw [alistGet_append_new hgm _] at h'
              injection h' with h''
              exact Or.inr ⟨p0, List.mem_cons_self p0 rest, hne, h''⟩
            · rw [alistGet_append_none_ne hgm hne _] at h'
              cases h'
        · exact Or.inr ⟨p, List.mem_cons_of_mem p0 hp, hh⟩

theorem add_params_total : ∀ (ps : List Parameter) (m : List (String × JSONType)),
    (∀ p ∈ ps, ∀ t, alistGet m p.name = some t → p.type_ = some t) →
    (∀ p ∈ ps, ∀ q ∈ ps, p.name = q.name → p.type_ = q.type_) →
    (∀ p ∈ ps, p.type_.isSome) →
    ∃ m', add_params m ps = .ok m' := by
  intro ps
  induction ps with
  | nil => intro m _ _ _; exact ⟨m, rfl⟩
  | cons p0 rest ih =>
    intro m hagree hcons hdecl
    rw [add_params]
    cases hg : alistGet m p0.name with
    | some pt =>
      have htp := hagree p0 (List.mem_cons_self p0 rest) pt hg
      have hstep : add_param m p0 = .ok m := by
        rw [add_param_eq_some m p0 pt hg, if_neg (not_not_intro htp)]
      rw [hstep]
      exact ih m (fun p hp => hagree p (List.mem_cons_of_mem p0 hp))
        (fun p hp q hq => hcons p (List.mem_cons_of_mem p0 hp) q (List.mem_cons_of_mem p0 hq))
        (fun p hp => hdecl p (List.mem_cons_of_mem p0 hp))
    | none =>
      have hstep : add_param m p0 = .ok (m ++ [(p0.name, p0.type_.getD .string)]) :=
        add_param_eq_none m p0 hg
      rw [hstep]
      refine ih _ ?_
        (fun p hp q hq => hcons p (List.mem_cons_of_mem p0 hp) q (List.mem_cons_of_mem p0 hq))
        (fun p hp => hdecl p (List.mem_cons_of_mem p0 hp))
      intro p hp t hgt
      cases hgm : alistGet m p.name with
      | some x =>
        rw [alistGet_append_of_some hgm _] at hgt
        injection hgt with hx
        exact hx ▸ hagree p (List.mem_cons_of_mem p0 hp) x hgm
      | none =>
        by_cases hne : p0.name = p.name
        · rw [hne] at hgt
          rw [alistGet_append_new hgm _] at hgt
          injection hgt with hx
          have hpq := hcons p (List.mem_cons_of_mem p0 hp) p0 (List.mem_cons_self p0 rest) hne.symm
          cases hd0 : p0.type_ with
          | none => exact absurd (hdecl p0 (List.mem_cons_self p0 rest)) (by rw [hd0]; simp)
          | some u =>
            rw [hpq, hd0]
            rw [hd0] at hx
            rw [← hx]
            rfl
        · rw [alistGet_append_none_ne hgm hne _] at hgt
          cases hgt

theorem add_params_append : ∀ (l1 l2 : List Parameter) (m : List (String × JSONType)),
    add_params m (l1 ++ l2) =
      match add_params m l1 with
      | .ok m' => add_params m' l2
      | .error e => .error e := by
  intro l1
  induction l1 with
  | nil => intro l2 m; rfl
  | cons p rest ih =>
    intro l2 m
    rw [List.cons_append, add_params, add_params]
    cases add_param m p with
    | error e => rfl
    | ok m1 => exact ih l2 m1

theorem build_param_dict_eq : ∀ (vs : List (HttpVerb × Verb)) (m : List (String × JSONType)),
    build_param_dict_from m vs = add_params m (allParams vs) := by
  intro vs
  induction vs with
  | nil => intro m; rfl
  | cons vv rest ih =>
    intro m
    rw [build_param_dict_from]
    have hall : allParams (vv :: rest) = vv.2.parameters ++ allParams rest := by
      simp [allParams]
    rw [hall, add_params_append]
    cases h : add_params m vv.2.parameters with
    | error e => rfl
    | ok m1 => exact ih m1

theorem add_params_error : ∀ (ps : List Parameter) (m : List (String × JSONType)) (e : GenError),
    add_params m ps = .error e → e = .unsupportedSchema := by
  intro ps
  induction ps with
  | nil => intro m e h; cases h
  | cons p rest ih =>
    intro m e h
    rw [add_params] at h
    cases hstep : add_param m p with
    | error e' =>
      rw [hstep] at h
      injection h with h'
      cases hg : alistGet m p.name with
      | some pt =>
        rw [add_param_eq_some m p pt hg] at hstep
        by_cases ht : p.type_ ≠ some pt
        · rw [if_pos ht] at hstep
          injection hstep with h''
          rw [← h', ← h'']
        · rw [if_neg ht] at hstep
          cases hstep
      | none =>
        rw [add_param_eq_none m p hg] at hstep
        cases hstep
    | ok m1 =>
      rw [hstep] at h
      exact ih m1 e h

theorem render_component_error {pd : List (String × JSONType)} {c : String}
    {e : GenError} (h : render_component pd c = .error e) :
    e = .unsupportedSchema := by
  by_cases hp : IsPlaceholderStr c
  · cases hg : alistGet pd (stripFirstLast c) with
    | none =>
      rw [render_component_eval_none pd c hp hg] at h
      injection h with h'
      exact h'.symm
    | some pt =>
      rw [render_component_eval_some pd c pt hp hg] at h
      cases hm : JSON_TYPE_TO_PYTHON_TYPE pt with
      | none =>
        rw [hm] at h
        injection h with h'
        exact h'.symm
      | some tok => rw [hm] at h; cases h
  · rw [render_component_eval_lit pd c hp] at h
    cases h

theorem render_components_error : ∀ (cs : List String) (pd : List (String × JSONType))
    (e : GenError), render_components pd cs = .error e → e = .unsupportedSchema := by
  intro cs
  induction cs with
  | nil => intro pd e h; cases h
  | cons c rest ih =>
    intro pd e h
    rw [render_components] at h
    by_cases hce : c.isEmpty = true
    · rw [if_pos hce] at h
      exact ih pd e h
    · rw [if_neg hce] at h
      cases hrc : render_component pd c with
      | error e' =>
        rw [hrc] at h
        injection h with h'
        exact h' ▸ render_component_error hrc
      | ok rc =>
        rw [hrc] at h
        cases hrest : render_components pd rest with
        | error e' =>
          rw [hrest] at h
          injection h with h'
          exact h' ▸ ih pd e' hrest
        | ok rcs => rw [hrest] at h; cases h

theorem render_components_ok_of : ∀ (cs : List String) (pd : List (String × JSONType)),
    (∀ c ∈ cs, ¬c.isEmpty = true → ∃ rc, render_component pd c = .ok rc) →
    ∃ out, render_components pd cs = .ok out := by
  intro cs
  induction cs with
  | nil => intro pd _; exact ⟨[], rfl⟩
  | cons c rest ih =>
    intro pd hall
    rw [render_components]
    by_cases hce : c.isEmpty = true
    · rw [if_pos hce]
      exact ih pd (fun x hx => hall x (List.mem_cons_of_mem c hx))
    · rw [if_neg hce]
      obtain ⟨rc, hrc⟩ := hall c (List.mem_cons_self c rest) hce
      rw [hrc]
      obtain ⟨out, hout⟩ := ih pd (fun x hx => hall x (List.mem_cons_of_mem c hx))
      rw [hout]
      exact ⟨rc :: out, rfl⟩

theorem render_components_ok_all : ∀ (cs : List String) (pd : List (String × JSONType))
    (out : List String), render_components pd cs = .ok out →
    ∀ c ∈ cs, ¬c.isEmpty = true → ∃ rc, render_component pd c = .ok rc := by
  intro cs
  induction cs with
  | nil => intro pd out _ c hc; cases hc
  | cons c0 rest ih =>
    intro pd out h c hc hcne
    rw [render_components] at h
    by_cases hce : c0.isEmpty = true
    · rw [if_pos hce] at h
      rcases List.mem_cons.1 hc with rfl | hc'
      · exact absurd hce hcne
      · exact ih pd out h c hc' hcne
    · rw [if_neg hce] at h
      cases hrc : render_component pd c0 with
      | error e => rw [hrc] at h; cases h
      | ok rc =>
        rw [hrc] at h
        cases hrest : render_components pd rest with
        | error e => rw [hrest] at h; cases h
        | ok rcs =>
          rcases List.mem_cons.1 hc with rfl | hc'
          · exact ⟨rc, hrc⟩
          · exact ih pd rcs hrest c hc' hcne

theorem render_components_forall₂ : ∀ (cs : List String) (pd : List (String × JSONType))
    (out : List String), render_components pd cs = .ok out →
    List.Forall₂ (fun c rc => render_component pd c = .ok rc)
      (cs.filter (fun c => !c.isEmpty)) out := by
  intro cs
  induction cs with
  | nil =>
    intro pd out h
    injection h with h'
    rw [← h']
    exact List.Forall₂.nil
  | cons c rest ih =>
    intro pd out h
    rw [render_components] at h
    by_cases hce : c.isEmpty = true
    · rw [if_pos hce] at h
      have hfil : (c :: rest).filter (fun x => !x.isEmpty) =
          rest.filter (fun x => !x.isEmpty) := by
        simp [List.filter_cons, hce]
      rw [hfil]
      exact ih pd out h
    · rw [if_neg hce] at h
      cases hrc : render_component pd c with
      | error e => rw [hrc] at h; cases h
      | ok rc =>
        rw [hrc] at h
        cases hrest : render_components pd rest with
        | error e => rw [hrest] at h; cases h
        | ok rcs =>
          rw [hrest] at h
          injection h with h'
          rw [← h']
          have hcf : c.isEmpty = false := Bool.eq_false_iff.2 hce
          have hfil : (c :: rest).filter (fun x => !x.isEmpty) =
              c :: rest.filter (fun x => !x.isEmpty) := by
            simp [List.filter_cons, hcf]
          rw [hfil]
          exact List.Forall₂.cons hrc (ih pd rcs hrest)

/-- C7: route rendering of a Path (i) succeeds exactly when every parameter
name carries one consistent declared type across the Path's verbs and every
`{name}` placeholder has a matching declared parameter whose type maps to a
routing type token; (ii) every failure is the unsupported-schema error;
(iii) a placeholder whose declared parameter type is integer or number
renders to the `int` route converter and a string-typed one to the `str`
converter; (iv) on success the output is the `/`-join of the per-component
renderings. Parameters are assumed to carry a declared type, as the parser
guarantees (`JSONType(get_as_str(...))` never yields `None`). -/
theorem C7_route_rendering (path : Path)
    (hdecl : ∀ p ∈ allParams path.verbs, p.type_.isSome) :
    ((∃ out, render_as_django_url_pattern path = .ok out) ↔
      (ParamsConsistent path.verbs ∧
        ∀ c ∈ effComponents path.path, ¬c.isEmpty = true → IsPlaceholderStr c →
          ∃ p ∈ allParams path.verbs, p.name = stripFirstLast c ∧
            (JSON_TYPE_TO_PYTHON_TYPE (p.type_.getD .string)).isSome)) ∧
    (∀ e, render_as_django_url_pattern path = .error e → e = .unsupportedSchema) ∧
    (∀ m, build_param_dict path.verbs = .ok m →
      ∀ c, IsPlaceholderStr c →
        ∀ p ∈ allParams path.verbs, p.name = stripFirstLast c →
          ((p.type_ = some .integer ∨ p.type_ = some .number) →
            render_component m c = .ok ("<int:" ++ stripFirstLast c ++ ">")) ∧
          (p.type_ = some .string →
            render_component m c = .ok ("<str:" ++ stripFirstLast c ++ ">"))) ∧
    (∀ m out, build_param_dict path.verbs = .ok m →
      render_as_django_url_pattern path = .ok out →
      ∃ rcs, List.Forall₂ (fun c rc => render_component m c = .ok rc)
        ((effComponents path.path).filter (fun c => !c.isEmpty)) rcs ∧
        out = String.intercalate "/" rcs) := by
  have hocc : ∀ m, build_param_dict path.verbs = .ok m →
      ∀ p ∈ allParams path.verbs, ∃ t, alistGet m p.name = some t ∧ p.type_ = some t := by
    intro m hm p hp
    rw [build_param_dict, build_param_dict_eq] at hm
    obtain ⟨t, hget, hd⟩ := add_params_occ _ _ _ hm p hp
    rcases hd with hd | hd
    · exact ⟨t, hget, hd⟩
    · exact absurd (hdecl p hp) (by rw [hd]; simp)
  refine ⟨⟨?_, ?_⟩, ?_, ?_, ?_⟩
  · rintro ⟨out, hout⟩
    cases hm : build_param_dict path.verbs with
    | error e =>
      rw [radup_eval_err path e hm] at hout
      cases hout
    | ok m =>
      rw [radup_eval_ok path m hm] at hout
      cases hcs : render_components m (effComponents path.path) with
      | error e => rw [hcs] at hout; cases hout
      | ok rcs =>
        constructor
        · intro p hp q hq hname
          obtain ⟨tp, hgp, hdp⟩ := hocc m hm p hp
          obtain ⟨tq, hgq, hdq⟩ := hocc m hm q hq
          rw [hname] at hgp
          rw [hgp] at hgq
          injection hgq with ht
          rw [hdp, hdq, ht]
        · intro c hc hcne hpl
          obtain ⟨rc, hrc⟩ := render_components_ok_all _ _ _ hcs c hc hcne
          cases hg : alistGet m (stripFirstLast c) with
          | none =>
            rw [render_component_eval_none m c hpl hg] at hrc
            cases hrc
          | some pt =>
            rw [render_component_eval_some m c pt hpl hg] at hrc
            cases hmap : JSON_TYPE_TO_PYTHON_TYPE pt with
            | none => rw [hmap] at hrc; cases hrc
            | some tok =>
              rw [build_param_dict, build_param_dict_eq] at hm
              rcases add_params_sound _ _ _ hm _ _ hg with h0 | ⟨p, hp, hpn, hpt⟩
              · cases h0
              · exact ⟨p, hp, hpn, by rw [hpt, hmap]; rfl⟩
  · rintro ⟨hcons, hplace⟩
    have hdict : ∃ m, build_param_dict path.verbs = .ok m := by
      rw [build_param_dict, build_param_dict_eq]
      refine add_params_total _ _ (fun p _ t hget => by cases hget) ?_ hdecl
      intro p hp q hq
      exact hcons p hp q hq
    obtain ⟨m, hm⟩ := hdict
    have hcomp : ∀ c ∈ effComponents path.path, ¬c.isEmpty = true →
        ∃ rc, render_component m c = .ok rc := by
      intro c hc hcne
      by_cases hpl : IsPlaceholderStr c
      · obtain ⟨p, hp, hpn, hmap⟩ := hplace c hc hcne hpl
        obtain ⟨t, hget, hdt⟩ := hocc m hm p hp
        rw [hpn] at hget
        have hmap' : (JSON_TYPE_TO_PYTHON_TYPE t).isSome := by
          rw [hdt] at hmap
          simpa using hmap
        obtain ⟨tok, htok⟩ := Option.isSome_iff_exists.1 hmap'
        refine ⟨"<" ++ tok ++ ":" ++ stripFirstLast c ++ ">", ?_⟩
        rw [render_component_eval_some m c t hpl hget, htok]
      · exact ⟨c, render_component_eval_lit m c hpl⟩
    obtain ⟨out, hout⟩ := render_components_ok_of _ _ hcomp
    refine ⟨String.intercalate "/" out, ?_⟩
    rw [radup_eval_ok path m hm, hout]
  · intro e he
    cases hm : build_param_dict path.verbs with
    | error e' =>
      rw [radup_eval_err path e' hm] at he
      injection he with h'
      rw [build_param_dict, build_param_dict_eq] at hm
      exact h' ▸ add_params_error _ _ _ hm
    | ok m =>
      rw [radup_eval_ok path m hm] at he
      cases hcs : render_components m (effComponents path.path) with
      | error e' =>
        rw [hcs] at he
        injection he with h'
        exact h' ▸ render_components_error _ _ _ hcs
      | ok rcs => rw [hcs] at he; cases he
  · intro m hm c hpl p hp hpn
    obtain ⟨t, hget, hdt⟩ := hocc m hm p hp
    rw [hpn] at hget
    constructor
    · intro hint
      rw [render_component_eval_some m c t hpl hget]
      rcases hint with hint | hint <;> rw [hint] at hdt <;>
        injection hdt with ht <;> rw [← ht] <;> rfl
    · intro hstr
      rw [render_component_eval_some m c t hpl hget]
      rw [hstr] at hdt
      injection hdt with ht
      rw [← ht]
      rfl
  · intro m out hm hout
    rw [radup_eval_ok path m hm] at hout
    cases hcs : render_components m (effComponents path.path) with
    | error e => rw [hcs] at hout; cases hout
    | ok rcs =>
      rw [hcs] at hout
      injection hout with h'
      exact ⟨rcs, render_components_forall₂ _ _ _ hcs, h'.symm⟩

/-- C7 witness: the theorem applied at the concrete path `/items/{itemId}`
with `itemId` declared integer — the rendered pattern uses the `int`
converter — and the same placeholder declared string in a second verb fails
with the unsupported-schema error. -/
theorem C7_witness :
    render_as_django_url_pattern exC7_path = .ok "items/<int:itemId>" ∧
    (∃ out, render_as_django_url_pattern exC7_path = .ok out) ∧
    render_as_django_url_pattern exC7_path2 = .error .unsupportedSchema := by
  refine ⟨rfl, ?_, rfl⟩
  refine (C7_route_rendering exC7_path ?_).1.2 ⟨?_, ?_⟩
  · intro p hp
    simp only [allParams, exC7_path, exC7_verb, List.map_cons, List.map_nil,
      List.flatten] at hp
    simp at hp
    subst hp
    rfl
  · intro p hp q hq _
    simp only [allParams, exC7_path, exC7_verb, List.map_cons, List.map_nil,
      List.flatten] at hp hq
    simp at hp hq
    subst hp
    subst hq
    rfl
  · intro c hc hcne hpl
    refine ⟨exC7_param, ?_, ?_, ?_⟩
    · simp [allParams, exC7_path, exC7_verb]
    · have hlist : effComponents exC7_path.path = ["items", "\x7bitemId\x7d"] := by
        rfl
      rw [hlist] at hc
      simp only [List.mem_cons, List.not_mem_nil, or_false] at hc
      rcases hc with rfl | rfl
      · exact absurd hpl (by decide)
      · rfl
    · rfl

/-- C3 (code evaluation at the failing input): qualifying definition
`Parent`, an object with an inline (non-`Definition`) object property
`child`, names the child's descriptor with the LITERAL string
`"{qctx.owner.name}_{qctx.pname}"` — the f-string prefix is missing in the
source — instead of `Parent_child`; a nested shape that resolves to a named
`Definition` (here `S`, reached from `A`) does keep its declared name. -/
theorem C3_nested_literal_name :
    ((qualify_child_schemas 10 exC3_resolver {} "Parent" exC3_parent []).map
      (fun st => (lookupSer st exC3_ctxC).map (fun d => d.name))) =
      .ok (some literal_nested_name) ∧
    literal_nested_name = "\x7bqctx.owner.name\x7d_\x7bqctx.pname\x7d" ∧
    literal_nested_name ≠ "Parent_child" ∧
    ((qualify_child_schemas 10 exC1_resolver {} "A" exC1_A []).map
      (fun st => (lookupSer st exC1_ctxS).map (fun d => d.name))) = .ok (some "S") := by
  exact ⟨rfl, rfl, by decide, rfl⟩

theorem collect_eval_none (resolver : Resolver) (sers : SerMap)
    (vv : HttpVerb × Verb) (rest : List (HttpVerb × Verb))
    (hfn : vv.2.function_name = Option.none) :
    collect_verb_descrs resolver sers (vv :: rest) =
      collect_verb_descrs resolver sers rest := by
  rw [collect_verb_descrs, hfn]

theorem collect_eval_some (resolver : Resolver) (sers : SerMap)
    (vv : HttpVerb × Verb) (rest : List (HttpVerb × Verb)) (fn : String)
    (hfn : vv.2.function_name = some fn) :
    collect_verb_descrs resolver sers (vv :: rest) =
      match verb_ser_descr resolver sers vv.2 with
      | .error e => .error e
      | .ok sd =>
        match collect_verb_descrs resolver sers rest with
        | .error e => .error e
        | .ok (fns, vds) =>
          .ok (tokenize_snake_case_identifier fn true :: fns,
            { verb := vv.2, serializer_descriptor := sd } :: vds) := by
  rw [collect_verb_descrs, hfn]

theorem collect_verb_descrs_sound (resolver : Resolver) (sers : SerMap) :
    ∀ (vs : List (HttpVerb × Verb)) (fns : List (Bool × List String))
      (vds : List VerbDescriptor),
    collect_verb_descrs resolver sers vs = .ok (fns, vds) →
    vds.map (fun vd => vd.verb) =
      (vs.filter (fun vv => vv.2.function_name.isSome)).map (fun vv => vv.2) ∧
    fns = (vs.filter (fun vv => vv.2.function_name.isSome)).map
      (fun vv => tokenize_snake_case_identifier (vv.2.function_name.getD "") true) := by
  intro vs
  induction vs with
  | nil =>
    intro fns vds h
    injection h with h'
    injection h' with h1 h2
    subst h1
    subst h2
    exact ⟨rfl, rfl⟩
  | cons vv rest ih =>
    intro fns vds h
    cases hfn : vv.2.function_name with
    | none =>
      rw [collect_eval_none resolver sers vv rest hfn] at h
      obtain ⟨h1, h2⟩ := ih fns vds h
      have hfil : (vv :: rest).filter (fun vv => vv.2.function_name.isSome) =
          rest.filter (fun vv => vv.2.function_name.isSome) := by
        simp [List.filter_cons, hfn]
      rw [hfil]
      exact ⟨h1, h2⟩
    | some fn =>
      rw [collect_eval_some resolver sers vv rest fn hfn] at h
      cases hsd : verb_ser_descr resolver sers vv.2 with
      | error e => rw [hsd] at h; cases h
      | ok sd =>
        rw [hsd] at h
        cases hrest : collect_verb_descrs resolver sers rest with
        | error e => rw [hrest] at h; cases h
        | ok pr =>
          obtain ⟨fns', vds'⟩ := pr
          rw [hrest] at h
          injection h with h'
          injection h' with hfns hvds
          subst hfns
          subst hvds
          obtain ⟨i1, i2⟩ := ih fns' vds' hrest
          have hfil : (vv :: rest).filter (fun vv => vv.2.function_name.isSome) =
              vv :: rest.filter (fun vv => vv.2.function_name.isSome) := by
            simp [List.filter_cons, hfn]
          rw [hfil]
          constructor
          · simp only [List.map_cons]
            rw [i1]
          · simp only [List.map_cons]
            rw [hfn, ← i2]
            rfl

theorem mem_dedupFrom_acc : ∀ (xs acc : List (List String)) (x : List String),
    x ∈ acc → x ∈ dedupFrom acc xs := by
  intro xs
  induction xs with
  | nil => intro acc x hx; exact hx
  | cons y rest ih =>
    intro acc x hx
    rw [dedupFrom]
    by_cases hy : y ∈ acc
    · rw [if_pos hy]
      exact ih acc x hx
    · rw [if_neg hy]
      exact ih _ x (List.mem_append_left _ hx)

theorem mem_dedupFrom : ∀ (xs acc : List (List String)) (x : List String),
    x ∈ xs → x ∈ dedupFrom acc xs := by
  intro xs
  induction xs with
  | nil => intro acc x hx; cases hx
  | cons y rest ih =>
    intro acc x hx
    rw [dedupFrom]
    rcases List.mem_cons.1 hx with rfl | hx'
    · by_cases hy : x ∈ acc
      · rw [if_pos hy]
        exact mem_dedupFrom_acc rest acc x hy
      · rw [if_neg hy]
        exact mem_dedupFrom_acc rest _ x
          (List.mem_append_right _ (List.mem_singleton.2 rfl))
    · exact ih _ x hx'

theorem dedupFrom_all_eq (p0 : List String) :
    ∀ (xs acc : List (List String)), (∀ x ∈ xs, x = p0) → p0 ∈ acc →
      dedupFrom acc xs = acc := by
  intro xs
  induction xs with
  | nil => intro acc _ _; rfl
  | cons y rest ih =>
    intro acc hall hacc
    rw [dedupFrom]
    have hy : y = p0 := hall y (List.mem_cons_self y rest)
    rw [if_pos (hy ▸ hacc)]
    exact ih acc (fun x hx => hall x (List.mem_cons_of_mem y hx)) hacc

theorem candidates_all_eq (p0 : List String) (fns : List (Bool × List String))
    (hne : fns ≠ []) (hall : ∀ bn ∈ fns, bn.2.dropLast = p0) :
    endpoint_name_candidates fns = [p0] := by
  cases fns with
  | nil => exact absurd rfl hne
  | cons bn rest =>
    rw [endpoint_name_candidates, List.map_cons,
      hall bn (List.mem_cons_self bn rest), dedupFrom,
      if_neg (List.not_mem_nil p0), List.nil_append]
    refine dedupFrom_all_eq p0 _ _ ?_ (List.mem_singleton.2 rfl)
    intro x hx
    rw [List.mem_map] at hx
    obtain ⟨bn', hbn', hx'⟩ := hx
    rw [← hx']
    exact hall bn' (List.mem_cons_of_mem bn hbn')

theorem candidates_mem (fns : List (Bool × List String))
    (bn : Bool × List String) (hbn : bn ∈ fns) :
    bn.2.dropLast ∈ endpoint_name_candidates fns :=
  mem_dedupFrom _ _ _ (List.mem_map_of_mem _ hbn)

theorem process_path_eval (resolver : Resolver) (sers : SerMap) (path : Path)
    (fns : List (Bool × List String)) (vds : List VerbDescriptor)
    (hc : collect_verb_descrs resolver sers path.verbs = .ok (fns, vds)) :
    process_path resolver sers path =
      match endpoint_name_candidates fns with
      | [c] =>
        .ok ([{ path := path,
                class_name := render_as_camel_case (true, c) ++ "View",
                verbs := vds }], [])
      | _ => .ok ([], vds.map (fun vd => (path, vd))) := by
  unfold process_path
  rw [hc]

/-- C8: for any path whose flagged-verb scan succeeds, (i) the collected
verb descriptors cover exactly the generator-flagged verbs in order and the
collected names are their tokenized function names; (ii) when every flagged
verb yields the same prefix (tokenized name minus the trailing action
token) the path becomes exactly one grouped `Endpoint` named from that
shared prefix (camel-cased, `"View"` appended) and covering all the
collected descriptors, with no standalone entries; (iii) when two flagged
verbs yield distinct prefixes, no `Endpoint` is created and every collected
descriptor becomes its own standalone handler entry. -/
theorem C8_endpoint_grouping (resolver : Resolver) (sers : SerMap) (path : Path)
    (fns : List (Bool × List String)) (vds : List VerbDescriptor)
    (hc : collect_verb_descrs resolver sers path.verbs = .ok (fns, vds)) :
    (vds.map (fun vd => vd.verb) =
      (path.verbs.filter (fun vv => vv.2.function_name.isSome)).map (fun vv => vv.2) ∧
     fns = (path.verbs.filter (fun vv => vv.2.function_name.isSome)).map
      (fun vv => tokenize_snake_case_identifier (vv.2.function_name.getD "") true)) ∧
    (∀ p0, (∀ bn ∈ fns, bn.2.dropLast = p0) → fns ≠ [] →
      process_path resolver sers path =
        .ok ([{ path := path,
                class_name := render_as_camel_case (true, p0) ++ "View",
                verbs := vds }], [])) ∧
    (∀ bn1 ∈ fns, ∀ bn2 ∈ fns, bn1.2.dropLast ≠ bn2.2.dropLast →
      process_path resolver sers path = .ok ([], vds.map (fun vd => (path, vd)))) := by
  refine ⟨collect_verb_descrs_sound resolver sers path.verbs fns vds hc, ?_, ?_⟩
  · intro p0 hall hne
    rw [process_path_eval resolver sers path fns vds hc,
      candidates_all_eq p0 fns hne hall]
  · intro bn1 h1 bn2 h2 hne2
    rw [process_path_eval resolver sers path fns vds hc]
    have m1 := candidates_mem fns bn1 h1
    have m2 := candidates_mem fns bn2 h2
    cases hl : endpoint_name_candidates fns with
    | nil => rfl
    | cons c tail =>
      cases tail with
      | nil =>
        rw [hl] at m1 m2
        rw [List.mem_singleton] at m1 m2
        exact absurd (m1.trans m2.symm) hne2
      | cons c2 t2 => rfl

/-- C8 witness: the theorem applied at a path with flagged verbs
`widget_list` and `widget_create` (shared prefix `["widget"]`) — grouped
into the single endpoint `WidgetView` — and at a path with flagged verbs
`list_widget` and `create_widget` (distinct prefixes) — both standalone. -/
theorem C8_witness :
    process_path exC8_resolver [] exC8_path =
      .ok ([{ path := exC8_path,
              class_name := render_as_camel_case (true, ["widget"]) ++ "View",
              verbs := exC8_vds }], []) ∧
    render_as_camel_case (true, ["widget"]) ++ "View" = "WidgetView" ∧
    process_path exC8_resolver [] exC8_path2 =
      .ok ([], exC8_vds2.map (fun vd => (exC8_path2, vd))) := by
  refine ⟨?_, rfl, ?_⟩
  · exact (C8_endpoint_grouping exC8_resolver [] exC8_path
      [(true, ["widget", "list"]), (true, ["widget", "create"])] exC8_vds rfl).2.1
      ["widget"] (by decide) (by decide)
  · exact (C8_endpoint_grouping exC8_resolver [] exC8_path2
      [(true, ["list", "widget"]), (true, ["create", "widget"])] exC8_vds2 rfl).2.2
      (true, ["list", "widget"]) (by decide) (true, ["create", "widget"])
      (by decide) (by decide)

theorem build_property_zero (sers : SerMap) (schema : SchemaNode)
    (name source : String) (aux : List (String × PyTree)) :
    build_property 0 sers schema name source aux = .error .fuelExhausted := rfl

theorem build_property_eval_ref (f : Nat) (sers : SerMap) (c r : Addr)
    (name source : String) (aux : List (String × PyTree)) :
    build_property (f + 1) sers (.ref c r) name source aux =
      .error .attributeError := by
  rw [build_property]

theorem build_property_eval (f : Nat) (sers : SerMap) (c : Addr) (t : JSONType)
    (fmt : Option String) (props : Option (List (String × SchemaNode)))
    (req : Option (List String)) (its : Option SchemaNode) (dn : Option String)
    (name source : String) (aux : List (String × PyTree)) :
    build_property (f + 1) sers (.schema c t fmt props req its dn) name source aux =
      match default_node_builder_registry t fmt with
      | .error e => .error e
      | .ok fn =>
        match run_node_builder f sers fn (.schema c t fmt props req its dn)
            name source aux with
        | .error e => .error e
        | .ok _ => .ok PyTree.pyNone := by
  rw [build_property]

theorem build_property_eval2 (f : Nat) (sers : SerMap) (c : Addr) (t : JSONType)
    (fmt : Option String) (props : Option (List (String × SchemaNode)))
    (req : Option (List String)) (its : Option SchemaNode) (dn : Option String)
    (name source : String) (aux : List (String × PyTree)) (fn : NodeBuilder)
    (hreg : default_node_builder_registry t fmt = .ok fn) :
    build_property (f + 1) sers (.schema c t fmt props req its dn) name source aux =
      match run_node_builder f sers fn (.schema c t fmt props req its dn)
          name source aux with
      | .error e => .error e
      | .ok _ => .ok PyTree.pyNone := by
  rw [build_property_eval, hreg]

/-- C6 (code evaluation): `build_property` never returns a constructed
fragment — every successful run yields Python `None` — even though, at the
failing input (a concrete integer schema), the registry lookup succeeds
and the looked-up builder itself produces the `fields.IntegerField(...)`
call node, which is not `None`. The claimed behaviour (the constructed
call-expression fragment is returned) fails because the function body
lacks a `return` statement. -/
theorem C6_missing_return :
    (∀ (fuel : Nat) (sers : SerMap) (schema : SchemaNode) (name source : String)
       (aux : List (String × PyTree)) (r : PyTree),
      build_property fuel sers schema name source aux = .ok r → r = PyTree.pyNone) ∧
    build_property 10 [] exC6_schema "x" "x" [] = .ok PyTree.pyNone ∧
    default_node_builder_registry .integer Option.none = .ok .integer_field ∧
    run_node_builder 9 [] .integer_field exC6_schema "x" "x" [] =
      .ok (build_python_function_call ["fields", "IntegerField"] []) ∧
    PyTree.pyNone ≠ build_python_function_call ["fields", "IntegerField"] [] := by
  refine ⟨?_, rfl, rfl, rfl, ?_⟩
  · intro fuel sers schema name source aux r h
    cases fuel with
    | zero => rw [build_property_zero] at h; cases h
    | succ f =>
      cases schema with
      | ref c rr => rw [build_property_eval_ref] at h; cases h
      | schema c t fmt props req its dn =>
        cases hreg : default_node_builder_registry t fmt with
        | error e =>
          rw [build_property_eval, hreg] at h
          cases h
        | ok fn =>
          rw [build_property_eval2 f sers c t fmt props req its dn name source aux
            fn hreg] at h
          cases hrun : run_node_builder f sers fn (.schema c t fmt props req its dn)
              name source aux with
          | error e => rw [hrun] at h; cases h
          | ok v =>
            rw [hrun] at h
            injection h with h'
            exact h'.symm
  · intro h
    cases h

end Spec2Proof
